import Mathlib

/-!
# lasttodolist: task store and analytics aggregator

A shallow embedding of `src/app.js` (task list, filtering, mutation handlers and the
analytics aggregations) and of the handlers of `src/auth.js` (forms, sign-out, auth state
listener), together with the parts of the JavaScript platform the code
relies on: the `Date` calendar operations, `Array.prototype.sort`, `String.prototype.trim`
and binary64 arithmetic.

Conventions of the embedding:

* A `Date` is its time value in milliseconds, read in local time.  The local time zone
  has a constant offset (no daylight-saving transitions), so local fields are the
  ECMAScript abstract operations applied to the local millisecond count, and comparing
  two dates compares these counts.
* `null`/absent fields are `Option` values.
* Global state (`window.tasks`, `window.currentFilter`, `window.currentUser`) is passed
  explicitly; the current instant (`new Date()`) is an explicit argument `now`.
* Requests to the backend are returned as data (`Request`) instead of being performed.
-/

namespace TodoList

/-! ## ECMAScript date operations -/

/-- Milliseconds per day, `1000 * 60 * 60 * 24`. -/
def msPerDay : Int := 1000 * 60 * 60 * 24

/-- ECMAScript `Day(t)`: the day number of a time value. -/
def Day (t : Int) : Int := t / msPerDay

/-- ECMAScript `TimeWithinDay(t)`. -/
def TimeWithinDay (t : Int) : Int := t % msPerDay

/-- ECMAScript `DaysInYear(y)`. -/
def DaysInYear (y : Int) : Int :=
  if y % 4 ≠ 0 then 365 else if y % 100 ≠ 0 then 366 else if y % 400 ≠ 0 then 365 else 366

/-- ECMAScript `DayFromYear(y)`: day number of the first day of year `y`. -/
def DayFromYear (y : Int) : Int :=
  365 * (y - 1970) + (y - 1969) / 4 - (y - 1901) / 100 + (y - 1601) / 400

/-- ECMAScript `YearFromTime(t)`: the largest `y` with `DayFromYear y ≤ Day t`, found from
the mean-year estimate, which is off by at most one (`YearFromTime_spec`). -/
def YearFromTime (t : Int) : Int :=
  let d := Day t
  let y := 1970 + (d * 400) / 146097
  if DayFromYear (y + 1) ≤ d then y + 1 else if DayFromYear y ≤ d then y else y - 1

/-- Leap-year offset of a year: `1` in a leap year, `0` otherwise. -/
def leapOffset (y : Int) : Int := if DaysInYear y = 366 then 1 else 0

/-- ECMAScript `InLeapYear(t)`. -/
def InLeapYear (t : Int) : Int := leapOffset (YearFromTime t)

/-- ECMAScript `DayWithinYear(t)`. -/
def DayWithinYear (t : Int) : Int := Day t - DayFromYear (YearFromTime t)

/-- The month index `0..11` of day `d` within a year with leap offset `l` (the table of
ECMAScript `MonthFromTime`). -/
def monthFromDay (d l : Int) : Int :=
  if d < 31 then 0
  else if d < 59 + l then 1
  else if d < 90 + l then 2
  else if d < 120 + l then 3
  else if d < 151 + l then 4
  else if d < 181 + l then 5
  else if d < 212 + l then 6
  else if d < 243 + l then 7
  else if d < 273 + l then 8
  else if d < 304 + l then 9
  else if d < 334 + l then 10
  else 11

/-- ECMAScript `MonthFromTime(t)`: month index `0..11`. -/
def MonthFromTime (t : Int) : Int := monthFromDay (DayWithinYear t) (InLeapYear t)

/-- Day within the year on which month `m` (index `0..11`) starts, for leap offset `l`. -/
def monthStart (m : Int) (l : Int) : Int :=
  if m = 0 then 0
  else if m = 1 then 31
  else if m = 2 then 59 + l
  else if m = 3 then 90 + l
  else if m = 4 then 120 + l
  else if m = 5 then 151 + l
  else if m = 6 then 181 + l
  else if m = 7 then 212 + l
  else if m = 8 then 243 + l
  else if m = 9 then 273 + l
  else if m = 10 then 304 + l
  else 334 + l

/-- ECMAScript `DateFromTime(t)`: day of the month, `1..31`. -/
def DateFromTime (t : Int) : Int :=
  DayWithinYear t - monthStart (MonthFromTime t) (InLeapYear t) + 1

/-- ECMAScript `WeekDay(t)`: `0` is Sunday, `6` is Saturday. -/
def WeekDay (t : Int) : Int := (Day t + 4) % 7

/-- ECMAScript `MakeDay(year, month, date)`: the month is normalised into the year, and
the date counts on from the first day of that month (it may be `≤ 0` or past the end). -/
def MakeDay (year month date : Int) : Int :=
  let ym := year + month / 12
  let mn := month % 12
  DayFromYear ym + monthStart mn (leapOffset ym) + date - 1

/-- ECMAScript `MakeDate(day, time)`. -/
def MakeDate (day time : Int) : Int := day * msPerDay + time

/-- `Date.prototype.getFullYear`. -/
def getFullYear (t : Int) : Int := YearFromTime t

/-- `Date.prototype.getMonth`. -/
def getMonth (t : Int) : Int := MonthFromTime t

/-- `Date.prototype.getDate`. -/
def getDate (t : Int) : Int := DateFromTime t

/-- `Date.prototype.getDay`. -/
def getDay (t : Int) : Int := WeekDay t

/-- `Date.prototype.setDate(dt)`: the new time value (the time of day is kept). -/
def setDate (t : Int) (dt : Int) : Int :=
  MakeDate (MakeDay (YearFromTime t) (MonthFromTime t) dt) (TimeWithinDay t)

/-- `new Date(year, monthIndex, 1)`: years `0..99` are read as `1900 + year`. -/
def newDateYM (year month : Int) : Int :=
  let yr := if 0 ≤ year ∧ year ≤ 99 then 1900 + year else year
  MakeDate (MakeDay yr month 1) 0

/-- English short month names used by `toLocaleDateString` with `month: short`. -/
def shortMonthNames : List String :=
  ["Jan", "Feb", "Mar", "Apr", "May", "Jun", "Jul", "Aug", "Sep", "Oct", "Nov", "Dec"]

/-- `date.toLocaleDateString` for `en-US` with `month: short, year: numeric`. -/
def formatMonthYear (t : Int) : String :=
  shortMonthNames.getD (getMonth t).toNat "" ++ " " ++ toString (getFullYear t)

/-! ## Data model -/

/-- A task of the local snapshot (`window.tasks`); timestamps are `Date`s or `null`. -/
structure Task where
  id : String
  userId : String
  text : String
  category : Option String
  completed : Bool
  createdAt : Option Int
  completedAt : Option Int
deriving DecidableEq, Repr

/-- The signed-in user (`window.currentUser`). -/
structure User where
  uid : String
  email : String
deriving DecidableEq, Repr

/-- The global state of `app.js` (`window.unsubscribeTasks` is kept in `Session`). -/
structure AppState where
  currentUser : Option User
  currentFilter : String
  tasks : List Task
deriving DecidableEq, Repr

/-- Initial globals: no user, filter `all`, empty snapshot. -/
def AppState.init : AppState := { currentUser := none, currentFilter := "all", tasks := [] }

/-- A timestamp field as the client submits it: the `serverTimestamp()` sentinel or `null`. -/
inductive TimeField where
  | serverTimestamp
  | null
deriving DecidableEq, Repr

/-- The document passed to `addDoc`. -/
structure NewTask where
  userId : String
  text : String
  category : String
  completed : Bool
  createdAt : TimeField
  completedAt : TimeField
deriving DecidableEq, Repr

/-- The partial document passed to `updateDoc`: absent fields are `none`. -/
structure UpdateFields where
  text : Option String
  completed : Option Bool
  completedAt : Option TimeField
deriving DecidableEq, Repr

/-- A request to the backend. -/
inductive Request where
  | addDoc (coll : String) (fields : NewTask)
  | updateDoc (coll : String) (id : String) (fields : UpdateFields)
  | deleteDoc (coll : String) (id : String)
deriving DecidableEq, Repr

/-- What a handler did: the requests it issued, the notification it showed (message and
success flag), the value it wrote to the task input (if it wrote one), and the globals. -/
structure HandlerResult where
  requests : List Request
  shown : Option (String × Bool)
  inputWrite : Option String
  state : AppState
deriving DecidableEq, Repr

/-! ## Binary64 arithmetic

JavaScript numbers are IEEE 754 binary64 values.  The non-negative finite ones that
occur here are held exactly as `m / 2 ^ s` with integer `m` and `s`; a quotient or
product is the exact result rounded to 53 significant bits, ties to even.  (All
magnitudes that occur lie far inside the normal range, so overflow and subnormal numbers
are left out.) -/

/-- A non-negative finite binary64 value `m / 2 ^ s`. -/
structure Double where
  m : Nat
  s : Int
deriving DecidableEq, Repr

/-- The rational value of a double. -/
def Double.toRat (x : Double) : ℚ := (x.m : ℚ) * (2 : ℚ) ^ (-x.s)

/-- Floor of the binary logarithm, `0` at `0` (`fuel` bounds the number of halvings). -/
def log2Fuel : Nat → Nat → Nat
  | 0, _ => 0
  | fuel + 1, n => if n < 2 then 0 else log2Fuel fuel (n / 2) + 1

/-- Floor of the binary logarithm of a natural number. -/
def log2Nat (n : Nat) : Nat := log2Fuel n n

/-- The integer nearest to `n / d`, a tie going to the even neighbour. -/
def roundHalfEven (n d : Nat) : Nat :=
  let q := n / d
  let r := n % d
  if 2 * r < d then q else if d < 2 * r then q + 1 else if q % 2 = 0 then q else q + 1

/-- Floor of the binary logarithm of the positive rational `n / d`. -/
def floorLog2 (n d : Nat) : Int :=
  let e : Int := (log2Nat n : Int) - (log2Nat d : Int)
  if 0 ≤ e then (if d * 2 ^ e.toNat ≤ n then e else e - 1)
  else (if d ≤ n * 2 ^ (-e).toNat then e else e - 1)

/-- The binary64 value nearest to the rational `n / d` (`d > 0`), ties to even: the
quotient is scaled into `[2 ^ 52, 2 ^ 53)` and rounded to an integer there. -/
def roundBinary64 (n d : Nat) : Double :=
  if n = 0 then { m := 0, s := 0 }
  else
    let s : Int := 52 - floorLog2 n d
    if 0 ≤ s then { m := roundHalfEven (n * 2 ^ s.toNat) d, s := s }
    else { m := roundHalfEven n (d * 2 ^ (-s).toNat), s := s }

/-- JavaScript `a / b` for non-negative integers `a`, `b` (`b > 0`). -/
def jsDiv (a b : Nat) : Double := roundBinary64 a b

/-- JavaScript `x * k` for a double `x` and a non-negative integer `k`. -/
def jsMul (x : Double) (k : Nat) : Double :=
  if 0 ≤ x.s then roundBinary64 (x.m * k) (2 ^ x.s.toNat)
  else roundBinary64 (x.m * k * 2 ^ (-x.s).toNat) 1

/-- `Math.round`: the nearest integer, a tie going up. -/
def mathRound (x : Double) : Nat :=
  if 0 ≤ x.s then (2 * x.m + 2 ^ x.s.toNat) / (2 * 2 ^ x.s.toNat)
  else x.m * 2 ^ (-x.s).toNat

/-- `Math.ceil`. -/
def mathCeil (x : Double) : Nat :=
  if 0 ≤ x.s then (x.m + 2 ^ x.s.toNat - 1) / 2 ^ x.s.toNat
  else x.m * 2 ^ (-x.s).toNat

/-! ## Strings and arrays -/

/-- ECMAScript white space and line terminators, the characters `trim` removes. -/
def isJsWhiteSpace (c : Char) : Bool :=
  let n := c.toNat
  n = 0x0009 || n = 0x000A || n = 0x000B || n = 0x000C || n = 0x000D || n = 0x0020 ||
  n = 0x00A0 || n = 0x1680 || (0x2000 ≤ n && n ≤ 0x200A) || n = 0x2028 || n = 0x2029 ||
  n = 0x202F || n = 0x205F || n = 0x3000 || n = 0xFEFF

/-- `String.prototype.trim`. -/
def jsTrim (str : String) : String :=
  String.mk (((str.data.dropWhile isJsWhiteSpace).reverse.dropWhile isJsWhiteSpace).reverse)

/-- One insertion step of the sort: `rev` is the sorted part in reverse (last element
first); `item` moves left past every element that the comparator puts after it. -/
def sortInsert {α : Type} (cmp : α → α → Int) (item : α) : List α → List α
  | [] => [item]
  | y :: rev => if cmp y item > 0 then y :: sortInsert cmp item rev else item :: y :: rev

/-- `Array.prototype.sort(cmp)`: a stable insertion sort, elements taken left to right.
For a consistent comparator every stable sort gives this result; for an inconsistent one
the language leaves the order to the engine, and this is the order an insertion sort
gives. -/
def jsSort {α : Type} (cmp : α → α → Int) (xs : List α) : List α :=
  (xs.foldl (fun rev item => sortInsert cmp item rev) []).reverse

/-- `arr[i]++` on an array of counts (no effect outside the array). -/
def bump : List Nat → Nat → List Nat
  | [], _ => []
  | x :: xs, 0 => (x + 1) :: xs
  | x :: xs, i + 1 => x :: bump xs i

/-! ## `app.js`: mutation handlers -/

/-- Message of the `TypeError` raised by reading `uid` of `null` (engine wording). -/
def nullUidMessage : String := "Cannot read properties of null (reading \x27uid\x27)"

/-- Click handler of `addTaskBtn`.  `inputValue` is `taskInput.value`, `category` is
`categorySelect.value`, and `outcome` is how the backend settles an `addDoc` call
(`error msg` when it rejects with message `msg`).  Building the document reads
`window.currentUser.uid` inside the `try`, so with no user the `TypeError` is caught
before any request is made. -/
def addTaskClick (st : AppState) (inputValue category : String)
    (outcome : Except String Unit) : HandlerResult :=
  let taskText := jsTrim inputValue
  if taskText ≠ "" then
    match st.currentUser with
    | none =>
      { requests := [], shown := some ("Error adding task: " ++ nullUidMessage, false),
        inputWrite := none, state := st }
    | some user =>
      let request := Request.addDoc "tasks"
        { userId := user.uid, text := taskText, category := category, completed := false,
          createdAt := TimeField.serverTimestamp, completedAt := TimeField.null }
      match outcome with
      | Except.ok _ =>
        { requests := [request], shown := some ("Task added successfully", true),
          inputWrite := some "", state := st }
      | Except.error message =>
        { requests := [request], shown := some ("Error adding task: " ++ message, false),
          inputWrite := none, state := st }
  else
    { requests := [], shown := some ("Please enter a task", false),
      inputWrite := none, state := st }

/-- The partial document the checkbox `change` handler passes to `updateDoc`. -/
def toggleFields (checked : Bool) : UpdateFields :=
  { text := none, completed := some checked,
    completedAt := some (if checked then TimeField.serverTimestamp else TimeField.null) }

/-- The checkbox `change` handler of a rendered task. -/
def toggleChange (st : AppState) (task : Task) (checked : Bool)
    (outcome : Except String Unit) : HandlerResult :=
  let request := Request.updateDoc "tasks" task.id (toggleFields checked)
  match outcome with
  | Except.ok _ =>
    { requests := [request], shown := some ("Task updated successfully", true),
      inputWrite := none, state := st }
  | Except.error message =>
    { requests := [request], shown := some ("Error updating task: " ++ message, false),
      inputWrite := none, state := st }

/-- The store resolving a submitted timestamp field at server time `serverTime`. -/
def resolveTime (serverTime : Int) : TimeField → Option Int
  | TimeField.serverTimestamp => some serverTime
  | TimeField.null => none

/-- The store applying an `updateDoc`: the listed fields are overwritten, the others are
kept.  The result is the task as the next snapshot delivers it. -/
def applyUpdate (serverTime : Int) (fields : UpdateFields) (task : Task) : Task :=
  { task with
    text := fields.text.getD task.text
    completed := fields.completed.getD task.completed
    completedAt := match fields.completedAt with
      | some tf => resolveTime serverTime tf
      | none => task.completedAt }

/-- A task after a sequence of toggles, each given as the checkbox value and the server
time at which the store applies it. -/
def applyToggles (task : Task) (toggles : List (Bool × Int)) : Task :=
  toggles.foldl (fun t tg => applyUpdate tg.2 (toggleFields tg.1) t) task

/-! ## `app.js`: snapshot and rendering -/

/-- The comparator of `loadTasks`: `0` when either `createdAt` is missing, otherwise
`b.createdAt - a.createdAt`. -/
def compareCreated (a b : Task) : Int :=
  match a.createdAt, b.createdAt with
  | some ca, some cb => cb - ca
  | _, _ => 0

/-- The snapshot callback of `loadTasks`: `pushed` are the documents of the push in
delivery order, already converted to tasks; the new `window.tasks` is their sort. -/
def onSnapshot (st : AppState) (pushed : List Task) : AppState :=
  { st with tasks := jsSort compareCreated pushed }

/-- The filter predicate of `renderTasks`. -/
def filterPredicate (currentFilter : String) (task : Task) : Bool :=
  if currentFilter = "all" then true
  else if currentFilter = "active" then !task.completed
  else if currentFilter = "completed" then task.completed
  else task.category == some currentFilter

/-- The `filteredTasks` of `renderTasks`. -/
def filteredTasks (st : AppState) : List Task :=
  st.tasks.filter (filterPredicate st.currentFilter)

/-- The statistics `renderTasks` passes to `updateStats`: total, completed, active. -/
def renderStats (st : AppState) : Nat × Nat × Int :=
  let counts := st.tasks.foldl
    (fun (acc : Nat × Nat) task =>
      (acc.1 + 1, if task.completed then acc.2 + 1 else acc.2)) (0, 0)
  (counts.1, counts.2, (counts.1 : Int) - (counts.2 : Int))

/-! ## `app.js`: analytics -/

/-- The numbers `updateAnalytics` writes to the analytics tiles. -/
structure AnalyticsView where
  totalTasks : Nat
  completedTasks : Nat
  completionRate : Nat
  avgCompletionTime : Nat
deriving DecidableEq, Repr

/-- The `diffDays` of a task in `updateAnalytics`. -/
def diffDays (created completed : Int) : Nat :=
  let diffTime := (completed - created).natAbs
  mathCeil (jsDiv diffTime msPerDay.toNat)

/-- The loop of `updateAnalytics` over the snapshot: the pair `(totalCompletionTime,
completedTasksWithTime)`. -/
def completionTimes (tasks : List Task) : Nat × Nat :=
  tasks.foldl
    (fun (acc : Nat × Nat) task =>
      match task.completed, task.createdAt, task.completedAt with
      | true, some created, some completed =>
        (acc.1 + diffDays created completed, acc.2 + 1)
      | _, _, _ => acc) (0, 0)

/-- `updateAnalytics`: the tile values for the snapshot. -/
def updateAnalytics (tasks : List Task) : AnalyticsView :=
  if tasks.length = 0 then
    { totalTasks := 0, completedTasks := 0, completionRate := 0, avgCompletionTime := 0 }
  else
    let totalTasks := tasks.length
    let completedTasks := (tasks.filter (fun task => task.completed)).length
    let completionRate := mathRound (jsMul (jsDiv completedTasks totalTasks) 100)
    let times := completionTimes tasks
    let avgCompletionTime := if times.2 > 0 then mathRound (jsDiv times.1 times.2) else 0
    { totalTasks := totalTasks, completedTasks := completedTasks,
      completionRate := completionRate, avgCompletionTime := avgCompletionTime }

/-- Labels and counts handed to a chart. -/
structure ChartData where
  labels : List String
  data : List Nat
deriving DecidableEq, Repr

/-- The Sunday-indexed `weekData` of `getWeeklyProductivityData` at the instant `now`. -/
def weekData (tasks : List Task) (now : Int) : List Nat :=
  let today := now
  let dayOfWeek := getDay today
  let startDate := setDate today (getDate today - dayOfWeek)
  tasks.foldl
    (fun week task =>
      match task.completed, task.completedAt with
      | true, some completedDate =>
        if completedDate ≥ startDate ∧ completedDate ≤ today then
          bump week (getDay completedDate).toNat
        else week
      | _, _ => week) (List.replicate 7 0)

/-- `getWeeklyProductivityData` at the instant `now`. -/
def getWeeklyProductivityData (tasks : List Task) (now : Int) : ChartData :=
  let week := weekData tasks now
  { labels := ["Mon", "Tue", "Wed", "Thu", "Fri", "Sat", "Sun"],
    data := week.drop 1 ++ [week.getD 0 0] }

/-- The `monthDiff` of `getTasksOverTimeData`. -/
def monthDiff (now createdDate : Int) : Int :=
  (getFullYear now - getFullYear createdDate) * 12 + (getMonth now - getMonth createdDate)

/-- `getTasksOverTimeData` at the instant `now`. -/
def getTasksOverTimeData (tasks : List Task) (now : Int) : ChartData :=
  let months := [5, 4, 3, 2, 1, 0].map
    (fun i : Int => formatMonthYear (newDateYM (getFullYear now) (getMonth now - i)))
  let monthData := tasks.foldl
    (fun counts task =>
      match task.createdAt with
      | some createdDate =>
        let diff := monthDiff now createdDate
        if diff ≥ 0 ∧ diff < 6 then bump counts (5 - diff).toNat else counts
      | none => counts) (List.replicate 6 0)
  { labels := months, data := monthData }

/-- The `categoryCount` object literal of `updateCharts`, as key/count pairs. -/
def categoryCountInit : List (String × Nat) :=
  [("work", 0), ("personal", 0), ("shopping", 0), ("health", 0), ("education", 0)]

/-- `obj.hasOwnProperty(key)` on an object given by its own key/value pairs. -/
def hasOwnProperty (obj : List (String × Nat)) (key : String) : Bool :=
  obj.any (fun entry => entry.1 == key)

/-- `obj[key]++` on an own property. -/
def increment (obj : List (String × Nat)) (key : String) : List (String × Nat) :=
  obj.map (fun entry => if entry.1 == key then (entry.1, entry.2 + 1) else entry)

/-- `obj[key]` for a count, `0` standing for a missing property. -/
def getCount (obj : List (String × Nat)) (key : String) : Nat :=
  match obj.find? (fun entry => entry.1 == key) with
  | some entry => entry.2
  | none => 0

/-- The category tally of `updateCharts`; an absent category is the key `undefined`. -/
def categoryCount (tasks : List Task) : List (String × Nat) :=
  tasks.foldl
    (fun counts task =>
      let key := task.category.getD "undefined"
      if hasOwnProperty counts key then increment counts key else counts)
    categoryCountInit

/-- The data of the category chart: work, personal, shopping, health, education. -/
def categoryChartData (tasks : List Task) : List Nat :=
  let counts := categoryCount tasks
  [getCount counts "work", getCount counts "personal", getCount counts "shopping",
   getCount counts "health", getCount counts "education"]

/-- The data of the completion chart: completed and active counts. -/
def completionChartData (tasks : List Task) : List Nat :=
  [(tasks.filter (fun task => task.completed)).length,
   (tasks.filter (fun task => !task.completed)).length]

/-! ## Specification-side notions -/

/-- Counting into `n` buckets: each item adds one to the bucket `idx` names, if any. -/
def tally {α : Type} (idx : α → Option Nat) (n : Nat) (items : List α) : List Nat :=
  items.foldl
    (fun acc item => match idx item with
      | some i => bump acc i
      | none => acc) (List.replicate n 0)

/-- The Sunday-indexed bucket a task falls into in the weekly chart at `now`, if any. -/
def weekIndex (now : Int) (task : Task) : Option Nat :=
  match task.completed, task.completedAt with
  | true, some completedDate =>
    if completedDate ≥ setDate now (getDate now - getDay now) ∧ completedDate ≤ now then
      some (getDay completedDate).toNat
    else none
  | _, _ => none

/-- The bucket a task falls into in the monthly chart at `now`, if any. -/
def monthIndex (now : Int) (task : Task) : Option Nat :=
  match task.createdAt with
  | some createdDate =>
    if monthDiff now createdDate ≥ 0 ∧ monthDiff now createdDate < 6 then
      some (5 - monthDiff now createdDate).toNat
    else none
  | none => none

/-- The task is completed and its `completedAt` lies on the local calendar day `day`. -/
def completedOnDay (day : Int) (task : Task) : Bool :=
  task.completed && (task.completedAt.map Day == some day)

/-- The task has a known `createdAt` whose month lies `k` months before the month of `now`. -/
def createdMonthsAgo (now : Int) (k : Int) (task : Task) : Bool :=
  task.createdAt.map (monthDiff now) == some k

/-- The task has a known `createdAt` with `monthDiff` in `[0, 5]`. -/
def createdInWindow (now : Int) (task : Task) : Bool :=
  match task.createdAt with
  | some createdDate => decide (0 ≤ monthDiff now createdDate ∧ monthDiff now createdDate ≤ 5)
  | none => false

/-- The five categories of the category chart. -/
def categoryNames : List String := ["work", "personal", "shopping", "health", "education"]

/-- The task carries one of the five chart categories. -/
def recognizedCategory (task : Task) : Bool :=
  categoryNames.any (fun name => task.category == some name)

/-- The time value lies in the range of a stored timestamp, 1 January 0001 to
31 December 9999. -/
def validTime (t : Int) : Bool := decide (-62135596800000 ≤ t ∧ t ≤ 253402300799999)

/-- Every known timestamp of the snapshot is in the range of stored timestamps. -/
def validTimes (tasks : List Task) : Bool :=
  tasks.all (fun task => task.createdAt.all validTime && task.completedAt.all validTime)

/-- The task enters the average: completed, with both timestamps known. -/
def qualifies (task : Task) : Bool :=
  task.completed && task.createdAt.isSome && task.completedAt.isSome

/-- The exact contribution of a task with both timestamps known: the ceiling of the
elapsed time in days, `ceil(|completedAt - createdAt| / 86400000)`. -/
def exactDays (task : Task) : Int :=
  match task.createdAt, task.completedAt with
  | some created, some completed => ⌈((|completed - created| : Int) : ℚ) / 86400000⌉
  | _, _ => 0

/-- The `diffDays` the code computes for a task with both timestamps known. -/
def taskDiffDays (task : Task) : Nat :=
  match task.createdAt, task.completedAt with
  | some created, some completed => diffDays created completed
  | _, _ => 0

/-! ## Sample data -/

/-- A task of user `u1` with the given category, completion flag and timestamps. -/
def sampleTask (id : String) (category : Option String) (completed : Bool)
    (createdAt completedAt : Option Int) : Task :=
  { id := id, userId := "u1", text := "task", category := category, completed := completed,
    createdAt := createdAt, completedAt := completedAt }

/-- Sunday 3 March 2024, 12:00 local time. -/
def sundayNoon : Int := 1709467200000

/-- Sunday 3 March 2024, 08:00 local time. -/
def sundayMorning : Int := 1709452800000

/-- Monday 4 March 2024, 08:00 local time. -/
def mondayMorning : Int := 1709539200000

/-- Wednesday 6 March 2024, 12:00 local time. -/
def wednesdayNoon : Int := 1709726400000

/-- Thursday 11 January 2024, 19:06:40 local time. -/
def inJanuary2024 : Int := 1705000000000

/-- Monday 14 August 2023, 08:00 local time. -/
def inAugust2023 : Int := 1692000000000


/-! ## `app.js`: edit and delete handlers -/

/-- The edit button handler of a rendered task.  `promptResult` is what `prompt` returned,
`none` when the dialog was cancelled (`null`). -/
def editClick (st : AppState) (task : Task) (promptResult : Option String)
    (outcome : Except String Unit) : HandlerResult :=
  match promptResult with
  | some newText =>
    if jsTrim newText ≠ "" then
      let request := Request.updateDoc "tasks" task.id
        { text := some (jsTrim newText), completed := none, completedAt := none }
      match outcome with
      | Except.ok _ =>
        { requests := [request], shown := some ("Task updated successfully", true),
          inputWrite := none, state := st }
      | Except.error message =>
        { requests := [request], shown := some ("Error updating task: " ++ message, false),
          inputWrite := none, state := st }
    else
      { requests := [], shown := none, inputWrite := none, state := st }
  | none =>
    { requests := [], shown := none, inputWrite := none, state := st }

/-- The delete button handler of a rendered task; `confirmed` is the answer to `confirm`. -/
def deleteClick (st : AppState) (task : Task) (confirmed : Bool)
    (outcome : Except String Unit) : HandlerResult :=
  if confirmed then
    let request := Request.deleteDoc "tasks" task.id
    match outcome with
    | Except.ok _ =>
      { requests := [request], shown := some ("Task deleted successfully", true),
        inputWrite := none, state := st }
    | Except.error message =>
      { requests := [request], shown := some ("Error deleting task: " ++ message, false),
        inputWrite := none, state := st }
  else
    { requests := [], shown := none, inputWrite := none, state := st }

/-! ## `auth.js`: forms -/

/-- A call to the authentication or user-profile backend. -/
inductive AuthRequest where
  | signIn (email password : String)
  | createUser (email password : String)
  | updateProfile (uid displayName : String)
  | setUserDoc (uid name email : String)
  | signOut
deriving DecidableEq, Repr

/-- What a form handler of `auth.js` did: the calls it made, the text it put into the
form's error element with `showError` (if any), and the notification it showed (if any). -/
structure AuthResult where
  calls : List AuthRequest
  errorText : Option String
  shown : Option (String × Bool)
deriving DecidableEq, Repr

/-- The `length` of a JavaScript string: its number of UTF-16 code units. -/
def utf16Length (str : String) : Nat :=
  (str.data.map (fun c => if c.toNat < 0x10000 then 1 else 2)).sum

/-- Click handler of `loginButton`; `outcome` is how `signInWithEmailAndPassword`
settles. -/
def loginClick (email password : String) (outcome : Except String Unit) : AuthResult :=
  if email ≠ "" ∧ password ≠ "" then
    match outcome with
    | Except.ok _ =>
      { calls := [AuthRequest.signIn email password], errorText := none, shown := none }
    | Except.error _ =>
      { calls := [AuthRequest.signIn email password],
        errorText := some "Invalid email or password", shown := none }
  else
    { calls := [], errorText := some "Please enter both email and password", shown := none }

/-- Click handler of `signupButton`.  `created` is how `createUserWithEmailAndPassword`
settles (the new user's id when it succeeds), `profiled` how `updateProfile` settles and
`stored` how `setDoc` settles; a later call is made only when the earlier ones
succeeded. -/
def signupClick (name email password confirmPassword : String)
    (created : Except String String) (profiled stored : Except String Unit) : AuthResult :=
  if name = "" then
    { calls := [], errorText := some "Please enter your name", shown := none }
  else if utf16Length password < 6 then
    { calls := [], errorText := some "Password must be at least 6 characters", shown := none }
  else if password ≠ confirmPassword then
    { calls := [], errorText := some "Passwords do not match", shown := none }
  else if email ≠ "" ∧ password ≠ "" then
    match created with
    | Except.error message =>
      { calls := [AuthRequest.createUser email password],
        errorText := some ("Error creating account: " ++ message), shown := none }
    | Except.ok uid =>
      match profiled with
      | Except.error message =>
        { calls := [AuthRequest.createUser email password, AuthRequest.updateProfile uid name],
          errorText := some ("Error creating account: " ++ message), shown := none }
      | Except.ok _ =>
        match stored with
        | Except.error message =>
          { calls := [AuthRequest.createUser email password,
              AuthRequest.updateProfile uid name, AuthRequest.setUserDoc uid name email],
            errorText := some ("Error creating account: " ++ message), shown := none }
        | Except.ok _ =>
          { calls := [AuthRequest.createUser email password,
              AuthRequest.updateProfile uid name, AuthRequest.setUserDoc uid name email],
            errorText := none,
            shown := some ("Account created successfully! Please sign in.", true) }
  else
    { calls := [], errorText := some "Please fill all fields", shown := none }

/-! ## `auth.js` and `loadTasks`: the task subscription -/

/-- The globals together with the task subscriptions.  A subscription is opened by
`onSnapshot` and stays open until its unsubscribe function is called; subscriptions are
numbered in the order they are opened. -/
structure Session where
  app : AppState
  unsubscribeTasks : Option Nat
  live : List Nat
  opened : Nat
  calls : List AuthRequest
  shown : Option (String × Bool)
deriving DecidableEq, Repr

/-- The session at page load: `window.unsubscribeTasks = null`, nothing subscribed. -/
def Session.init : Session :=
  { app := AppState.init, unsubscribeTasks := none, live := [], opened := 0, calls := [],
    shown := none }

/-- `loadTasks`: nothing without a user; otherwise a new subscription is opened and its
unsubscribe function stored in `window.unsubscribeTasks`. -/
def loadTasks (s : Session) : Session :=
  match s.app.currentUser with
  | none => s
  | some _ =>
    { s with unsubscribeTasks := some s.opened, live := s.live ++ [s.opened],
             opened := s.opened + 1 }

/-- The `onAuthStateChanged` callback: with a user it records the user and calls
`loadTasks`; without one it clears the user and the snapshot. -/
def authStateChanged (s : Session) (user : Option User) : Session :=
  match user with
  | some u => loadTasks { s with app := { s.app with currentUser := some u } }
  | none => { s with app := { s.app with currentUser := none, tasks := [] } }

/-- Click handler of `signOutButton`: a stored unsubscribe function is called and
cleared, then `signOut` is called; `outcome` is how it settles. -/
def signOutClick (s : Session) (outcome : Except String Unit) : Session :=
  let s1 : Session :=
    match s.unsubscribeTasks with
    | some handle => { s with live := s.live.erase handle, unsubscribeTasks := none }
    | none => s
  match outcome with
  | Except.ok _ =>
    { s1 with calls := s1.calls ++ [AuthRequest.signOut],
              app := { s1.app with tasks := [] },
              shown := some ("Signed out successfully", true) }
  | Except.error message =>
    { s1 with calls := s1.calls ++ [AuthRequest.signOut],
              shown := some ("Error signing out: " ++ message, false) }

/-- The events that drive the subscription. -/
inductive SessionEvent where
  | authUser (user : User)
  | authSignedOut
  | signOutButton (outcome : Except String Unit)
deriving Repr

/-- One event applied to the session. -/
def sessionStep (s : Session) : SessionEvent → Session
  | SessionEvent.authUser user => authStateChanged s (some user)
  | SessionEvent.authSignedOut => authStateChanged s none
  | SessionEvent.signOutButton outcome => signOutClick s outcome

/-- A sequence of events applied from page load. -/
def sessionRun (events : List SessionEvent) : Session :=
  events.foldl sessionStep Session.init

/-! ## Specification-side notions: messages and month labels -/

/-- The text `shown` contains the text `message`. -/
def containsText (shown message : String) : Bool :=
  shown.data.tails.any (fun rest => message.data.isPrefixOf rest)

/-- The name of month `month` (index `0..11`) of year `year` in the label format. -/
def monthName (year month : Int) : String :=
  shortMonthNames.getD month.toNat "" ++ " " ++ toString year

/-- The year of the calendar month lying `k` months before the month of `now`. -/
def yearBefore (now k : Int) : Int := (getFullYear now * 12 + getMonth now - k) / 12

/-- The month index of the calendar month lying `k` months before the month of `now`. -/
def monthBefore (now k : Int) : Int := (getFullYear now * 12 + getMonth now - k) % 12

/-- The task has a known `createdAt` in month `month` (index `0..11`) of year `year`. -/
def createdInMonth (year month : Int) (task : Task) : Bool :=
  match task.createdAt with
  | some createdDate =>
    decide (getFullYear createdDate = year ∧ getMonth createdDate = month)
  | none => false

/-- Sunday 4 February 2024, 12:00 local time. -/
def februaryNoon : Int := 1707048000000

/-- The names of the weekdays in `getDay` order, the `daysOfWeek` of
`getWeeklyProductivityData`. -/
def daysOfWeek : List String := ["Sun", "Mon", "Tue", "Wed", "Thu", "Fri", "Sat"]

/-- Users of the sample sessions. -/
def userOne : User := { uid := "u1", email := "one@example.com" }

/-- A second sample user. -/
def userTwo : User := { uid := "u2", email := "two@example.com" }

/-! ## Calendar facts -/

theorem msPerDay_eq : msPerDay = 86400000 := by decide

theorem floor_link (y : Int) :
    (y - 1901) / 100 = ((y - 1969) / 4 + 17) / 25 ∧
    (y - 1601) / 400 = (((y - 1969) / 4 + 17) / 25 + 3) / 4 := by
  constructor <;> omega

/-- `YearFromTime t` is the year whose day range contains `Day t`. -/
theorem YearFromTime_spec (t : Int) :
    DayFromYear (YearFromTime t) ≤ Day t ∧ Day t < DayFromYear (YearFromTime t + 1) := by
  unfold YearFromTime
  simp only
  generalize Day t = d
  generalize hy : 1970 + d * 400 / 146097 = y
  have h0 := floor_link y
  have h1 := floor_link (y + 1)
  have h2 := floor_link (y - 1)
  have h3 := floor_link (y + 1 + 1)
  have e : y - 1 + 1 = y := by omega
  unfold DayFromYear
  split_ifs with c1 c2
  · unfold DayFromYear at c1; constructor <;> omega
  · unfold DayFromYear at c1 c2; constructor <;> omega
  · unfold DayFromYear at c1 c2; rw [e]; constructor <;> omega

theorem ite_range {c : Prop} [Decidable c] {a b : Int} (ha : 0 ≤ a ∧ a ≤ 11)
    (hb : 0 ≤ b ∧ b ≤ 11) : 0 ≤ (if c then a else b) ∧ (if c then a else b) ≤ 11 := by
  split_ifs <;> assumption

theorem monthFromDay_range (d l : Int) : 0 ≤ monthFromDay d l ∧ monthFromDay d l ≤ 11 := by
  unfold monthFromDay
  iterate 11 refine ite_range (by omega) ?_
  omega

theorem MonthFromTime_range (t : Int) : 0 ≤ MonthFromTime t ∧ MonthFromTime t ≤ 11 :=
  monthFromDay_range _ _

/-- Moving the date back by `k` days with `setDate` subtracts `k` whole days. -/
theorem setDate_getDate_sub (t k : Int) : setDate t (getDate t - k) = t - k * msPerDay := by
  have hm := MonthFromTime_range t
  have h1 : MonthFromTime t / 12 = 0 := by omega
  have h2 : MonthFromTime t % 12 = MonthFromTime t := by omega
  unfold setDate getDate DateFromTime MakeDate MakeDay
  simp only [h1, h2, add_zero]
  unfold InLeapYear DayWithinYear TimeWithinDay Day
  rw [msPerDay_eq]
  generalize monthStart (MonthFromTime t) (leapOffset (YearFromTime t)) = ms
  generalize DayFromYear (YearFromTime t) = dy
  omega

theorem getDay_range (t : Int) : 0 ≤ getDay t ∧ getDay t ≤ 6 := by
  unfold getDay WeekDay
  omega

/-! ## Bucket counting -/

theorem bump_length (l : List Nat) (i : Nat) : (bump l i).length = l.length := by
  induction l generalizing i with
  | nil => rfl
  | cons x xs ih => cases i <;> simp [bump, ih]

theorem bump_getD (l : List Nat) (i j : Nat) :
    (bump l i).getD j 0 = l.getD j 0 + if i = j ∧ i < l.length then 1 else 0 := by
  induction l generalizing i j with
  | nil => simp [bump]
  | cons x xs ih =>
    cases i with
    | zero => cases j <;> simp [bump]
    | succ i =>
      cases j with
      | zero => simp [bump]
      | succ j =>
        have h := ih i j
        simp only [bump, List.getD_cons_succ, List.length_cons, Nat.succ_lt_succ_iff,
          Nat.succ_inj] at h ⊢
        simpa using h

theorem bump_sum (l : List Nat) (i : Nat) :
    (bump l i).sum = l.sum + if i < l.length then 1 else 0 := by
  induction l generalizing i with
  | nil => simp [bump]
  | cons x xs ih =>
    cases i with
    | zero => simp [bump]; omega
    | succ i => simp [bump, ih]; split_ifs <;> omega


theorem foldl_bump_length {α : Type} (idx : α → Option Nat) (items : List α) (acc : List Nat) :
    (items.foldl (fun acc item => match idx item with
      | some i => bump acc i
      | none => acc) acc).length = acc.length := by
  induction items generalizing acc with
  | nil => rfl
  | cons a as ih =>
    simp only [List.foldl_cons]
    rw [ih]
    cases idx a <;> simp [bump_length]

theorem foldl_bump_getD {α : Type} (idx : α → Option Nat) (items : List α) (acc : List Nat)
    (j : Nat) (hj : j < acc.length) :
    (items.foldl (fun acc item => match idx item with
      | some i => bump acc i
      | none => acc) acc).getD j 0
      = acc.getD j 0 + items.countP (fun a => idx a == some j) := by
  induction items generalizing acc with
  | nil => simp
  | cons a as ih =>
    simp only [List.foldl_cons, List.countP_cons]
    cases h : idx a with
    | none =>
      simp only []
      rw [ih acc hj]
      simp
    | some i =>
      simp only []
      rw [ih (bump acc i) (by rw [bump_length]; exact hj), bump_getD]
      by_cases hij : i = j
      · subst hij
        simp [hj]
        omega
      · have hne : ¬ (some i == some j) = true := by simpa using hij
        simp [hij, hne]

theorem foldl_bump_sum {α : Type} (idx : α → Option Nat) (items : List α) (acc : List Nat) :
    (items.foldl (fun acc item => match idx item with
      | some i => bump acc i
      | none => acc) acc).sum
      = acc.sum + items.countP (fun a => match idx a with
        | some i => decide (i < acc.length)
        | none => false) := by
  induction items generalizing acc with
  | nil => simp
  | cons a as ih =>
    simp only [List.foldl_cons, List.countP_cons]
    cases h : idx a with
    | none => simp [ih acc]
    | some i =>
      simp only []
      rw [ih (bump acc i), bump_sum, bump_length]
      by_cases hi : i < acc.length
      · simp [hi]; omega
      · simp [hi]

theorem tally_length {α : Type} (idx : α → Option Nat) (n : Nat) (items : List α) :
    (tally idx n items).length = n := by
  unfold tally
  rw [foldl_bump_length]
  simp

theorem tally_getD {α : Type} (idx : α → Option Nat) (n : Nat) (items : List α) (j : Nat)
    (hj : j < n) :
    (tally idx n items).getD j 0 = items.countP (fun a => idx a == some j) := by
  unfold tally
  rw [foldl_bump_getD idx items _ j (by simpa using hj)]
  simp [hj]

theorem tally_sum {α : Type} (idx : α → Option Nat) (n : Nat) (items : List α) :
    (tally idx n items).sum = items.countP (fun a => match idx a with
        | some i => decide (i < n)
        | none => false) := by
  unfold tally
  rw [foldl_bump_sum]
  simp

theorem weekData_eq_tally (tasks : List Task) (now : Int) :
    weekData tasks now = tally (weekIndex now) 7 tasks := by
  unfold weekData tally
  dsimp only
  congr 1
  funext week task
  unfold weekIndex
  cases task.completed <;> cases task.completedAt <;> simp only []
  split_ifs <;> rfl

theorem monthData_eq_tally (tasks : List Task) (now : Int) :
    (getTasksOverTimeData tasks now).data = tally (monthIndex now) 6 tasks := by
  unfold getTasksOverTimeData tally
  simp only []
  congr 1
  funext counts task
  unfold monthIndex
  cases task.createdAt <;> simp only []
  split_ifs <;> rfl


theorem length_seven (l : List Nat) (h : l.length = 7) :
    ∃ a b c d e f g, l = [a, b, c, d, e, f, g] := by
  match l, h with
  | [a, b, c, d, e, f, g], _ => exact ⟨a, b, c, d, e, f, g, rfl⟩

/-- The reordering of `getWeeklyProductivityData` on a seven-entry week. -/
theorem weekly_data_eq (tasks : List Task) (now : Int) :
    ∃ a b c d e f g, weekData tasks now = [a, b, c, d, e, f, g] ∧
      (getWeeklyProductivityData tasks now).data = [b, c, d, e, f, g, a] := by
  have hlen : (weekData tasks now).length = 7 := by
    rw [weekData_eq_tally, tally_length]
  obtain ⟨a, b, c, d, e, f, g, hw⟩ := length_seven _ hlen
  refine ⟨a, b, c, d, e, f, g, hw, ?_⟩
  unfold getWeeklyProductivityData
  simp only [hw]
  rfl

theorem weekIndex_completed (now : Int) (task : Task) (i : Nat)
    (h : weekIndex now task = some i) : task.completed = true := by
  unfold weekIndex at h
  cases hc : task.completed
  · rw [hc] at h; simp at h
  · rfl

theorem weekIndex_lt (now : Int) (task : Task) (i : Nat)
    (h : weekIndex now task = some i) : i < 7 := by
  unfold weekIndex at h
  split at h
  · rename_i c _ _
    split_ifs at h
    have hr := getDay_range c
    have : (getDay c).toNat = i := by simpa using h
    omega
  · simp at h

/-- On a Wednesday the Monday bucket (Sunday-indexed `1`) holds exactly the tasks completed
on the calendar day two days before today. -/
theorem weekIndex_monday (now : Int) (hwed : getDay now = 3) (task : Task) :
    (weekIndex now task == some 1) = completedOnDay (Day now - 2) task := by
  unfold weekIndex completedOnDay
  rw [setDate_getDate_sub, hwed]
  cases task.completed <;> cases hd : task.completedAt <;> simp only []
  all_goals try rfl
  rename_i c
  unfold getDay WeekDay Day at hwed
  simp only [Option.map_some', Bool.true_and]
  rw [msPerDay_eq] at *
  by_cases hday : Day c = Day now - 2
  · have h1 : c ≥ now - 3 * 86400000 ∧ c ≤ now := by
      unfold Day at hday; rw [msPerDay_eq] at hday; omega
    have h2 : (getDay c).toNat = 1 := by
      unfold getDay WeekDay
      unfold Day at hday ⊢; rw [msPerDay_eq] at hday ⊢; omega
    rw [if_pos h1, h2, hday]
    simp
  · have hne : ¬ (some (Day c) == some (Day now - 2)) = true := by simpa using hday
    rw [Bool.eq_false_iff.mpr hne]
    split_ifs with hin
    · have h2 : (getDay c).toNat ≠ 1 := by
        unfold getDay WeekDay
        unfold Day at hday ⊢; rw [msPerDay_eq] at hday ⊢; omega
      simpa using h2
    · rfl


/-! ## Weekly completions -/

/-- A completed task whose `completedAt` lies on the Sunday that starts the week of `now`,
at a time of day earlier than that of `now`, is not later than `now`, falls on a Sunday,
and is counted in no slot. -/
theorem sunday_before_time_of_day_dropped (now c : Int) (task : Task)
    (hc : task.completed = true) (hd : task.completedAt = some c)
    (hday : Day c = Day now - getDay now) (htime : TimeWithinDay c < TimeWithinDay now) :
    c ≤ now ∧ getDay c = 0 ∧
    (getWeeklyProductivityData [task] now).data = [0, 0, 0, 0, 0, 0, 0] := by
  have hr := getDay_range now
  have hstart := setDate_getDate_sub now (getDay now)
  have hlt : c < now - getDay now * msPerDay := by
    unfold Day TimeWithinDay at *
    rw [msPerDay_eq] at *
    generalize getDay now = w at *
    have e1 := Int.ediv_add_emod c 86400000
    have e2 := Int.ediv_add_emod now 86400000
    omega
  refine ⟨?_, ?_, ?_⟩
  · rw [msPerDay_eq] at hlt; omega
  · unfold getDay WeekDay at *
    omega
  · unfold getWeeklyProductivityData weekData
    simp only [List.foldl_cons, List.foldl_nil, hc, hd, hstart]
    have hno : ¬ (c ≥ now - getDay now * msPerDay ∧ c ≤ now) := by omega
    rw [if_neg hno]
    rfl

/-- C1, the code at the failing inputs: a completed task whose `completedAt` lies on the
Sunday starting the week of `now`, earlier in the day than `now`, is a Sunday task not
later than `now` and yet is counted in no slot.  So a task completed on Sunday 3 March
2024 at 08:00 is in no slot (the last, Sunday, slot included) when `now` is noon of that
Sunday, and in no slot when `now` is Wednesday noon of that week. -/
theorem weekly_sunday_morning_dropped :
    (∀ (now c : Int) (task : Task), task.completed = true → task.completedAt = some c →
      Day c = Day now - getDay now → TimeWithinDay c < TimeWithinDay now →
      c ≤ now ∧ getDay c = 0 ∧
      (getWeeklyProductivityData [task] now).data = [0, 0, 0, 0, 0, 0, 0]) ∧
    getDay sundayNoon = 0 ∧ Day sundayMorning = Day sundayNoon ∧ getDay sundayMorning = 0 ∧
    sundayMorning ≤ sundayNoon ∧
    (getWeeklyProductivityData
      [sampleTask "a" (some "work") true (some sundayMorning) (some sundayMorning)]
      sundayNoon).data = [0, 0, 0, 0, 0, 0, 0] ∧
    getDay wednesdayNoon = 3 ∧ Day sundayMorning = Day wednesdayNoon - 3 ∧
    (getWeeklyProductivityData
      [sampleTask "a" (some "work") true (some sundayMorning) (some sundayMorning)]
      wednesdayNoon).data = [0, 0, 0, 0, 0, 0, 0] :=
  ⟨sunday_before_time_of_day_dropped, by decide⟩

/-- C5: when `now` falls on a Wednesday, the weekly result has seven entries, its entry 0
(the Monday slot) is the number of completed tasks whose `completedAt` lies on the
calendar day two days before today, and the entries sum to at most the number of
completed tasks. -/
theorem weekly_wednesday_monday_slot (tasks : List Task) (now : Int)
    (hwed : getDay now = 3) :
    (getWeeklyProductivityData tasks now).data.length = 7 ∧
    (getWeeklyProductivityData tasks now).data.getD 0 0
      = tasks.countP (completedOnDay (Day now - 2)) ∧
    (getWeeklyProductivityData tasks now).data.sum
      ≤ tasks.countP (fun task => task.completed) := by
  obtain ⟨a, b, c, d, e, f, g, hw, hd⟩ := weekly_data_eq tasks now
  rw [hd]
  refine ⟨rfl, ?_, ?_⟩
  · have h1 := tally_getD (weekIndex now) 7 tasks 1 (by decide)
    rw [← weekData_eq_tally, hw] at h1
    have h2 : (fun task => weekIndex now task == some 1)
        = completedOnDay (Day now - 2) := funext (weekIndex_monday now hwed)
    rw [h2] at h1
    simpa using h1
  · have h1 := tally_sum (weekIndex now) 7 tasks
    rw [← weekData_eq_tally, hw] at h1
    have h2 : [b, c, d, e, f, g, a].sum = [a, b, c, d, e, f, g].sum := by
      simp only [List.sum_cons, List.sum_nil]; omega
    rw [h2, h1]
    apply List.countP_mono_left
    intro task _ htask
    cases hi : weekIndex now task with
    | none => rw [hi] at htask; simp at htask
    | some i => exact weekIndex_completed now task i hi

/-- Witness for C5 on Wednesday 6 March 2024 with one task completed that Monday. -/
theorem weekly_wednesday_monday_slot_witness :
    getDay wednesdayNoon = 3 ∧
    (getWeeklyProductivityData
      [sampleTask "a" none true (some sundayMorning) (some mondayMorning)]
      wednesdayNoon).data.getD 0 0
      = [sampleTask "a" none true (some sundayMorning) (some mondayMorning)].countP
          (completedOnDay (Day wednesdayNoon - 2)) ∧
    [sampleTask "a" none true (some sundayMorning) (some mondayMorning)].countP
          (completedOnDay (Day wednesdayNoon - 2)) = 1 :=
  ⟨by decide,
   (weekly_wednesday_monday_slot
      [sampleTask "a" none true (some sundayMorning) (some mondayMorning)]
      wednesdayNoon (by decide)).2.1,
   by decide⟩

/-! ## Monthly creations -/

theorem monthIndex_eq (now : Int) (i : Nat) (hi : i < 6) (task : Task) :
    (monthIndex now task == some i) = createdMonthsAgo now (5 - (i : Int)) task := by
  unfold monthIndex createdMonthsAgo
  cases task.createdAt with
  | none => rfl
  | some c =>
    simp only [Option.map_some']
    generalize monthDiff now c = k
    by_cases hk : k = 5 - (i : Int)
    · subst hk
      have h1 : (5 - (i : Int)) ≥ 0 ∧ (5 - (i : Int)) < 6 := by omega
      have h2 : (5 - (5 - (i : Int))).toNat = i := by omega
      rw [if_pos h1, h2]
      simp
    · have hne : ¬ (some k == some (5 - (i : Int))) = true := by simpa using hk
      rw [Bool.eq_false_iff.mpr hne]
      split_ifs with hin
      · have h2 : (5 - k).toNat ≠ i := by omega
        simpa using h2
      · rfl

theorem monthIndex_window (now : Int) (task : Task) :
    (match monthIndex now task with
      | some i => decide (i < 6)
      | none => false) = createdInWindow now task := by
  unfold monthIndex createdInWindow
  cases task.createdAt with
  | none => rfl
  | some c =>
    simp only []
    generalize monthDiff now c = k
    by_cases hk : 0 ≤ k ∧ k ≤ 5
    · have h1 : k ≥ 0 ∧ k < 6 := by omega
      have h2 : (5 - k).toNat < 6 := by omega
      rw [if_pos h1]
      simp [hk, h2]
    · have h1 : ¬ (k ≥ 0 ∧ k < 6) := by omega
      rw [if_neg h1]
      simp only [decide_eq_false hk]

/-- C4: the monthly result has six counts; bucket `i` counts the tasks with known
`createdAt` and `monthDiff = 5 - i`; the six counts sum to the number of tasks with known
`createdAt` and `monthDiff` in `[0, 5]`; processing one more task adds one to bucket
`5 - monthDiff` when that task is in the window and changes nothing otherwise.  With
`now` in March 2024 a task created in January 2024 (`monthDiff = 2`) is counted at index 3
and a task created in August 2023 (`monthDiff = 7`) nowhere. -/
theorem monthly_creations_buckets (tasks : List Task) (now : Int) :
    (getTasksOverTimeData tasks now).data.length = 6 ∧
    (∀ i : Nat, i < 6 → (getTasksOverTimeData tasks now).data.getD i 0
      = tasks.countP (createdMonthsAgo now (5 - (i : Int)))) ∧
    (getTasksOverTimeData tasks now).data.sum = tasks.countP (createdInWindow now) ∧
    (∀ (task : Task) (c : Int), task.createdAt = some c →
      0 ≤ monthDiff now c → monthDiff now c ≤ 5 →
      (getTasksOverTimeData (tasks ++ [task]) now).data
        = bump (getTasksOverTimeData tasks now).data (5 - monthDiff now c).toNat) ∧
    (∀ task : Task, createdInWindow now task = false →
      (getTasksOverTimeData (tasks ++ [task]) now).data
        = (getTasksOverTimeData tasks now).data) ∧
    monthDiff sundayNoon inJanuary2024 = 2 ∧ monthDiff sundayNoon inAugust2023 = 7 ∧
    (getTasksOverTimeData
      [sampleTask "a" none false (some inJanuary2024) none,
       sampleTask "b" none false (some inAugust2023) none,
       sampleTask "c" none false none none] sundayNoon).data = [0, 0, 0, 1, 0, 0] := by
  refine ⟨?_, ?_, ?_, ?_, ?_, by decide, by decide, by decide⟩
  · rw [monthData_eq_tally, tally_length]
  · intro i hi
    rw [monthData_eq_tally, tally_getD _ _ _ _ hi]
    congr 1
    exact funext (monthIndex_eq now i hi)
  · rw [monthData_eq_tally, tally_sum]
    congr 1
    exact funext (monthIndex_window now)
  · intro task c hc h0 h5
    rw [monthData_eq_tally, monthData_eq_tally]
    unfold tally
    rw [List.foldl_append]
    have h1 : monthDiff now c ≥ 0 ∧ monthDiff now c < 6 := by omega
    simp [monthIndex, hc, h1]
  · intro task hout
    rw [monthData_eq_tally, monthData_eq_tally]
    unfold tally
    rw [List.foldl_append]
    have hnone : monthIndex now task = none := by
      unfold monthIndex
      unfold createdInWindow at hout
      cases hc : task.createdAt with
      | none => rfl
      | some c =>
        rw [hc] at hout
        have hk : ¬ (0 ≤ monthDiff now c ∧ monthDiff now c ≤ 5) := by simpa using hout
        have h1 : ¬ (monthDiff now c ≥ 0 ∧ monthDiff now c < 6) := by omega
        simp only []
        rw [if_neg h1]
    simp [hnone]


/-! ## Snapshot ordering -/

theorem sortInsert_perm {α : Type} (cmp : α → α → Int) (item : α) (rev : List α) :
    (sortInsert cmp item rev).Perm (item :: rev) := by
  induction rev with
  | nil => exact List.Perm.refl _
  | cons y ys ih =>
    unfold sortInsert
    split_ifs
    · exact (List.Perm.cons y ih).trans (List.Perm.swap item y ys)
    · exact List.Perm.refl _

/-- The sort model rearranges its input and nothing else. -/
theorem jsSort_perm {α : Type} (cmp : α → α → Int) (xs : List α) :
    (jsSort cmp xs).Perm xs := by
  unfold jsSort
  have key : ∀ (ys rev : List α),
      (ys.foldl (fun rev item => sortInsert cmp item rev) rev).Perm (ys.reverse ++ rev) := by
    intro ys
    induction ys with
    | nil => intro rev; exact List.Perm.refl _
    | cons y ys ih =>
      intro rev
      simp only [List.foldl_cons, List.reverse_cons, List.append_assoc, List.singleton_append]
      exact (ih _).trans (List.Perm.append_left _ (sortInsert_perm cmp y rev))
  have h := key xs []
  rw [List.append_nil] at h
  exact (List.reverse_perm _).trans (h.trans (List.reverse_perm _))

theorem sortInsert_mem {α : Type} (cmp : α → α → Int) (item x : α) (rev : List α) :
    x ∈ sortInsert cmp item rev ↔ x = item ∨ x ∈ rev :=
  (sortInsert_perm cmp item rev).mem_iff.trans List.mem_cons

/-- Inserting into an oldest-first list keeps it oldest-first when the comparator is the
difference of keys. -/
theorem sortInsert_sorted {α : Type} (key : α → Int) (item : α) (rev : List α)
    (h : rev.Pairwise (fun a b => key a ≤ key b)) :
    (sortInsert (fun a b => key b - key a) item rev).Pairwise (fun a b => key a ≤ key b) := by
  induction rev with
  | nil => simp [sortInsert]
  | cons y ys ih =>
    rw [List.pairwise_cons] at h
    unfold sortInsert
    split_ifs with hgt
    · rw [List.pairwise_cons]
      refine ⟨?_, ih h.2⟩
      intro x hx
      rcases (sortInsert_mem _ item x ys).mp hx with rfl | hmem
      · omega
      · exact h.1 x hmem
    · rw [List.pairwise_cons]
      refine ⟨?_, List.pairwise_cons.mpr h⟩
      intro x hx
      rcases List.mem_cons.mp hx with rfl | hmem
      · omega
      · have := h.1 x hmem
        omega

/-- With a comparator that is the difference of keys, the sort model orders by key,
largest first. -/
theorem jsSort_sorted {α : Type} (key : α → Int) (xs : List α) :
    (jsSort (fun a b => key b - key a) xs).Pairwise (fun a b => key b ≤ key a) := by
  unfold jsSort
  rw [List.pairwise_reverse]
  have gen : ∀ (ys rev : List α), rev.Pairwise (fun a b => key a ≤ key b) →
      (ys.foldl (fun rev item => sortInsert (fun a b => key b - key a) item rev) rev).Pairwise
        (fun a b => key a ≤ key b) := by
    intro ys
    induction ys with
    | nil => intro rev h; exact h
    | cons y ys ih => intro rev h; exact ih _ (sortInsert_sorted key y rev h)
  exact gen xs [] List.Pairwise.nil

theorem sortInsert_congr {α : Type} (cmp cmp2 : α → α → Int) (item : α) (rev : List α)
    (h : ∀ y ∈ rev, cmp y item = cmp2 y item) :
    sortInsert cmp item rev = sortInsert cmp2 item rev := by
  induction rev with
  | nil => rfl
  | cons y ys ih =>
    unfold sortInsert
    rw [h y (List.mem_cons_self y ys), ih (fun z hz => h z (List.mem_cons_of_mem y hz))]

theorem jsSort_congr {α : Type} (cmp cmp2 : α → α → Int) (xs : List α)
    (h : ∀ a ∈ xs, ∀ b ∈ xs, cmp a b = cmp2 a b) : jsSort cmp xs = jsSort cmp2 xs := by
  unfold jsSort
  congr 1
  have gen : ∀ (ys rev : List α), (∀ a ∈ ys ++ rev, ∀ b ∈ ys ++ rev, cmp a b = cmp2 a b) →
      ys.foldl (fun rev item => sortInsert cmp item rev) rev
        = ys.foldl (fun rev item => sortInsert cmp2 item rev) rev := by
    intro ys
    induction ys with
    | nil => intro rev _; rfl
    | cons y ys ih =>
      intro rev hall
      simp only [List.foldl_cons]
      have hy : y ∈ (y :: ys) ++ rev := by simp
      rw [sortInsert_congr cmp cmp2 y rev
        (fun z hz => hall z (by simp [hz]) y hy)]
      apply ih
      intro a ha b hb
      have mem : ∀ c, c ∈ ys ++ sortInsert cmp2 y rev → c ∈ (y :: ys) ++ rev := by
        intro c hc
        rcases List.mem_append.mp hc with h1 | h1
        · simp [h1]
        · rcases (sortInsert_mem cmp2 y c rev).mp h1 with h2 | h2
          · simp [h2]
          · simp [h2]
      exact hall a (mem a ha) b (mem b hb)
  exact gen xs [] (by simpa using h)

/-- When every pushed task has a known `createdAt`, the snapshot is newest-first. -/
theorem onSnapshot_sorted_of_known (st : AppState) (pushed : List Task)
    (hknown : ∀ task ∈ pushed, task.createdAt ≠ none) :
    (onSnapshot st pushed).tasks.Pairwise
      (fun a b => b.createdAt.getD 0 ≤ a.createdAt.getD 0) := by
  have hsort := jsSort_sorted (fun task : Task => task.createdAt.getD 0) pushed
  have hcmp : ∀ a ∈ pushed, ∀ b ∈ pushed,
      compareCreated a b = b.createdAt.getD 0 - a.createdAt.getD 0 := by
    intro a ha b hb
    unfold compareCreated
    cases hca : a.createdAt with
    | none => exact absurd hca (hknown a ha)
    | some ca =>
      cases hcb : b.createdAt with
      | none => exact absurd hcb (hknown b hb)
      | some cb => rfl
  unfold onSnapshot
  simp only
  rw [jsSort_congr compareCreated _ pushed hcmp]
  exact hsort

/-- A task without `createdAt` between two others compares as 0 with both, so the sort
leaves the three in place. -/
theorem sort_keeps_order_around_pending (st : AppState) (a n b : Task)
    (hn : n.createdAt = none) : (onSnapshot st [a, n, b]).tasks = [a, n, b] := by
  have h1 : compareCreated a n = 0 := by
    unfold compareCreated; rw [hn]; cases a.createdAt <;> rfl
  have h2 : compareCreated n b = 0 := by
    unfold compareCreated; rw [hn]
  simp [onSnapshot, jsSort, sortInsert, h1, h2]

/-- C2, the code at the failing input: a push `[a, n, b]` in which `n` has no `createdAt`
keeps its order whatever the dates of `a` and `b`.  For `a` created on Sunday, `n` with no
`createdAt` yet and `b` created on Monday, every comparison the sort makes returns 0 and
the snapshot is `[a, n, b]`: the older task `a` stands before the newer task `b`, both
with known `createdAt`. -/
theorem snapshot_order_with_pending_task :
    (∀ (st : AppState) (a n b : Task), n.createdAt = none →
      (onSnapshot st [a, n, b]).tasks = [a, n, b]) ∧
    (onSnapshot AppState.init
      [sampleTask "a" (some "work") false (some sundayMorning) none,
       sampleTask "n" (some "work") false none none,
       sampleTask "b" (some "work") false (some mondayMorning) none]).tasks
      = [sampleTask "a" (some "work") false (some sundayMorning) none,
         sampleTask "n" (some "work") false none none,
         sampleTask "b" (some "work") false (some mondayMorning) none] ∧
    sundayMorning < mondayMorning ∧
    compareCreated (sampleTask "a" (some "work") false (some sundayMorning) none)
      (sampleTask "n" (some "work") false none none) = 0 ∧
    compareCreated (sampleTask "n" (some "work") false none none)
      (sampleTask "b" (some "work") false (some mondayMorning) none) = 0 :=
  ⟨sort_keeps_order_around_pending, by decide⟩

/-! ## Filtering -/

/-- C8: the `completed` filter yields exactly the completed tasks in snapshot order, `all`
yields the snapshot, `active` exactly the tasks that are not completed, and any other
filter value exactly the tasks whose category is that value; each result is a
subsequence of the snapshot. -/
theorem filter_views (st : AppState) :
    filteredTasks { st with currentFilter := "completed" }
      = st.tasks.filter (fun task => task.completed) ∧
    filteredTasks { st with currentFilter := "all" } = st.tasks ∧
    filteredTasks { st with currentFilter := "active" }
      = st.tasks.filter (fun task => !task.completed) ∧
    (∀ value : String, value ≠ "all" → value ≠ "active" → value ≠ "completed" →
      filteredTasks { st with currentFilter := value }
        = st.tasks.filter (fun task => task.category == some value)) ∧
    (∀ value : String,
      (filteredTasks { st with currentFilter := value }).Sublist st.tasks) := by
  refine ⟨?_, ?_, ?_, ?_, ?_⟩
  · unfold filteredTasks
    congr 1
  · unfold filteredTasks
    have h : filterPredicate "all" = fun _ => true := by
      funext task
      simp [filterPredicate]
    simp only [h, List.filter_true]
  · unfold filteredTasks
    congr 1
  · intro value h1 h2 h3
    unfold filteredTasks
    congr 1
    funext task
    simp [filterPredicate, h1, h2, h3]
  · intro value
    exact List.filter_sublist _

/-! ## Creating a task -/

/-- C9: with a user signed in, the add-task handler issues a request exactly when the
trimmed text is non-empty; for an empty trimmed text it issues none and leaves the globals
(the snapshot included) unchanged; otherwise it issues the single `addDoc` on `tasks` with
the trimmed text, the selected category, `completed = false`, `completedAt = null`,
`createdAt` the server timestamp and the user's id as owner.  The globals are never
changed by the handler. -/
theorem add_task_request (st : AppState) (user : User) (hu : st.currentUser = some user)
    (inputValue category : String) (outcome : Except String Unit) :
    ((addTaskClick st inputValue category outcome).requests ≠ [] ↔ jsTrim inputValue ≠ "") ∧
    (jsTrim inputValue = "" →
      (addTaskClick st inputValue category outcome).requests = [] ∧
      (addTaskClick st inputValue category outcome).state = st) ∧
    (jsTrim inputValue ≠ "" →
      (addTaskClick st inputValue category outcome).requests
        = [Request.addDoc "tasks"
            { userId := user.uid, text := jsTrim inputValue, category := category,
              completed := false, createdAt := TimeField.serverTimestamp,
              completedAt := TimeField.null }]) ∧
    (addTaskClick st inputValue category outcome).state = st := by
  unfold addTaskClick
  simp only [hu]
  by_cases h : jsTrim inputValue = ""
  · simp [h]
  · cases outcome <;> simp [h]

/-- Witness for C9: user `u1` adds a task typed with surrounding blanks. -/
theorem add_task_request_witness :
    (addTaskClick { AppState.init with currentUser := some { uid := "u1", email := "e" } }
      "  buy milk " "shopping" (Except.ok ())).requests
      = [Request.addDoc "tasks"
          { userId := "u1", text := "buy milk", category := "shopping",
            completed := false, createdAt := TimeField.serverTimestamp,
            completedAt := TimeField.null }] :=
  (add_task_request { AppState.init with currentUser := some { uid := "u1", email := "e" } }
    { uid := "u1", email := "e" } rfl "  buy milk " "shopping" (Except.ok ())).2.2.1
    (by decide)

/-! ## Toggling completion -/

theorem applyToggles_concat (task : Task) (toggles : List (Bool × Int)) (last : Bool × Int) :
    applyToggles task (toggles ++ [last])
      = applyUpdate last.2 (toggleFields last.1) (applyToggles task toggles) := by
  unfold applyToggles
  rw [List.foldl_append]
  rfl

/-- C10: after any non-empty sequence of toggles, a task is completed exactly when its
`completedAt` is not null; toggling to true and then to false leaves `completedAt` null
and `completed` false; and the handler submits exactly the update `completed = checked`,
`completedAt = server time if checked else null` for the task. -/
theorem toggle_invariant (task : Task) (toggles : List (Bool × Int)) (hne : toggles ≠ []) :
    ((applyToggles task toggles).completed = true
      ↔ (applyToggles task toggles).completedAt ≠ none) ∧
    (∀ t1 t2 : Int,
      (applyToggles task [(true, t1), (false, t2)]).completedAt = none ∧
      (applyToggles task [(true, t1), (false, t2)]).completed = false) ∧
    (∀ (st : AppState) (checked : Bool) (outcome : Except String Unit),
      (toggleChange st task checked outcome).requests
        = [Request.updateDoc "tasks" task.id
            { text := none, completed := some checked,
              completedAt := some (if checked then TimeField.serverTimestamp
                else TimeField.null) }]) := by
  refine ⟨?_, ?_, ?_⟩
  · rcases List.eq_nil_or_concat toggles with h | ⟨init, last, h⟩
    · exact absurd h hne
    · rw [h, List.concat_eq_append, applyToggles_concat]
      obtain ⟨checked, time⟩ := last
      cases checked <;> simp [applyUpdate, toggleFields, resolveTime]
  · intro t1 t2
    simp [applyToggles, applyUpdate, toggleFields, resolveTime]
  · intro st checked outcome
    cases outcome <;> rfl

/-- Witness for C10: a fresh task toggled to true, to false and to true again. -/
theorem toggle_invariant_witness :
    (applyToggles (sampleTask "a" none false (some sundayMorning) none)
        [(true, mondayMorning), (false, wednesdayNoon), (true, wednesdayNoon)]).completed
      = true
      ↔ (applyToggles (sampleTask "a" none false (some sundayMorning) none)
        [(true, mondayMorning), (false, wednesdayNoon), (true, wednesdayNoon)]).completedAt
      ≠ none :=
  (toggle_invariant (sampleTask "a" none false (some sundayMorning) none)
    [(true, mondayMorning), (false, wednesdayNoon), (true, wednesdayNoon)] (by decide)).1


/-! ## Category tally -/

theorem increment_keys (obj : List (String × Nat)) (key : String) :
    (increment obj key).map Prod.fst = obj.map Prod.fst := by
  unfold increment
  rw [List.map_map]
  apply List.map_congr_left
  intro entry _
  simp only [Function.comp]
  split_ifs <;> rfl

theorem hasOwnProperty_keys (obj obj2 : List (String × Nat)) (key : String)
    (h : obj.map Prod.fst = obj2.map Prod.fst) :
    hasOwnProperty obj key = hasOwnProperty obj2 key := by
  have e : ∀ o : List (String × Nat),
      hasOwnProperty o key = (o.map Prod.fst).any (fun k => k == key) := by
    intro o
    unfold hasOwnProperty
    induction o with
    | nil => rfl
    | cons x xs ih => simp [ih]
  rw [e, e, h]

theorem hasOwnProperty_cons (k : String) (v : Nat) (rest : List (String × Nat))
    (name : String) :
    hasOwnProperty ((k, v) :: rest) name = (k == name || hasOwnProperty rest name) := rfl

theorem increment_cons (k : String) (v : Nat) (rest : List (String × Nat)) (key : String) :
    increment ((k, v) :: rest) key
      = (if k == key then (k, v + 1) else (k, v)) :: increment rest key := rfl

theorem getCount_cons (k : String) (v : Nat) (rest : List (String × Nat)) (name : String) :
    getCount ((k, v) :: rest) name = if k == name then v else getCount rest name := by
  unfold getCount
  rw [List.find?_cons]
  cases h : (k == name) <;> simp [h]

theorem getCount_increment (obj : List (String × Nat)) (key name : String) :
    getCount (increment obj key) name
      = getCount obj name + if key = name ∧ hasOwnProperty obj name = true then 1 else 0 := by
  induction obj with
  | nil => simp [increment, getCount, hasOwnProperty]
  | cons entry rest ih =>
    obtain ⟨k, v⟩ := entry
    rw [increment_cons, hasOwnProperty_cons, getCount_cons]
    by_cases hkey : k = key
    · subst hkey
      rw [if_pos (beq_self_eq_true k), getCount_cons]
      by_cases hk : k = name
      · subst hk
        simp
      · have h1 : (k == name) = false := by simpa using hk
        simp only [h1, Bool.false_or, ih]
        simp
    · have h0 : ¬ (k == key) = true := by simpa using hkey
      rw [if_neg h0, getCount_cons]
      by_cases hk : k = name
      · subst hk
        have : ¬ key = k := fun h => hkey h.symm
        simp [this]
      · have h1 : (k == name) = false := by simpa using hk
        simp only [h1, Bool.false_or, ih]
        simp

theorem categoryFold_keys (tasks : List Task) (acc : List (String × Nat)) :
    (tasks.foldl
      (fun counts task =>
        let key := task.category.getD "undefined"
        if hasOwnProperty counts key then increment counts key else counts) acc).map Prod.fst
      = acc.map Prod.fst := by
  induction tasks generalizing acc with
  | nil => rfl
  | cons task rest ih =>
    simp only [List.foldl_cons]
    rw [ih]
    split_ifs
    · exact increment_keys _ _
    · rfl

theorem categoryFold_getCount (tasks : List Task) (acc : List (String × Nat))
    (name : String) :
    getCount (tasks.foldl
      (fun counts task =>
        let key := task.category.getD "undefined"
        if hasOwnProperty counts key then increment counts key else counts) acc) name
      = getCount acc name + if hasOwnProperty acc name = true then
          tasks.countP (fun task => task.category.getD "undefined" == name) else 0 := by
  induction tasks generalizing acc with
  | nil => simp
  | cons task rest ih =>
    simp only [List.foldl_cons, List.countP_cons]
    generalize task.category.getD "undefined" = key
    by_cases hown : hasOwnProperty acc key = true
    · rw [if_pos hown, ih, getCount_increment,
        hasOwnProperty_keys _ acc name (increment_keys acc key)]
      by_cases hname : hasOwnProperty acc name = true
      · by_cases hk : key = name
        · simp [hname, hk]; omega
        · simp [hname, hk]
      · simp [hname]
    · rw [if_neg hown, ih]
      by_cases hname : hasOwnProperty acc name = true
      · have hk : ¬ key = name := fun h => hown (h ▸ hname)
        simp [hname, hk]
      · simp [hname]

theorem recognized_split (task : Task) :
    (if (task.category.getD "undefined" == "work") = true then 1 else 0)
      + (if (task.category.getD "undefined" == "personal") = true then 1 else 0)
      + (if (task.category.getD "undefined" == "shopping") = true then 1 else 0)
      + (if (task.category.getD "undefined" == "health") = true then 1 else 0)
      + (if (task.category.getD "undefined" == "education") = true then 1 else 0)
      = if recognizedCategory task = true then 1 else 0 := by
  unfold recognizedCategory categoryNames
  cases task.category with
  | none => decide
  | some c =>
    simp only [Option.getD_some]
    by_cases h1 : c = "work"
    · subst h1; decide
    by_cases h2 : c = "personal"
    · subst h2; decide
    by_cases h3 : c = "shopping"
    · subst h3; decide
    by_cases h4 : c = "health"
    · subst h4; decide
    by_cases h5 : c = "education"
    · subst h5; decide
    simp [h1, h2, h3, h4, h5]

theorem countP_recognized (tasks : List Task) :
    tasks.countP (fun task => task.category.getD "undefined" == "work")
      + tasks.countP (fun task => task.category.getD "undefined" == "personal")
      + tasks.countP (fun task => task.category.getD "undefined" == "shopping")
      + tasks.countP (fun task => task.category.getD "undefined" == "health")
      + tasks.countP (fun task => task.category.getD "undefined" == "education")
      = tasks.countP recognizedCategory := by
  induction tasks with
  | nil => rfl
  | cons task rest ih =>
    simp only [List.countP_cons]
    have h := recognized_split task
    omega

/-- C6: the five category counts sum to the number of tasks whose category is one of
work, personal, shopping, health, education; a task with any other category (or none),
wherever it stands in the snapshot, leaves every count as it is without that task; the
total task count is the snapshot length
whatever the categories; e.g. tasks tagged `urgent`, untagged, or tagged `hasOwnProperty`
change nothing while a `work` task is counted. -/
theorem category_counts (tasks : List Task) :
    (categoryChartData tasks).sum = tasks.countP recognizedCategory ∧
    (categoryChartData tasks).length = 5 ∧
    (∀ (task : Task) (later : List Task), recognizedCategory task = false →
      categoryCount (tasks ++ task :: later) = categoryCount (tasks ++ later)) ∧
    (updateAnalytics tasks).totalTasks = tasks.length ∧
    categoryChartData
      [sampleTask "a" (some "urgent") false none none,
       sampleTask "b" none false none none,
       sampleTask "c" (some "hasOwnProperty") false none none,
       sampleTask "d" (some "work") false none none] = [1, 0, 0, 0, 0] ∧
    (updateAnalytics
      [sampleTask "a" (some "urgent") false none none,
       sampleTask "b" none false none none,
       sampleTask "c" (some "hasOwnProperty") false none none,
       sampleTask "d" (some "work") false none none]).totalTasks = 4 := by
  refine ⟨?_, rfl, ?_, ?_, by decide, by decide⟩
  · unfold categoryChartData categoryCount
    simp only [List.sum_cons, List.sum_nil, categoryFold_getCount]
    have h0 : ∀ name, name ∈ categoryNames →
        getCount categoryCountInit name = 0 ∧ hasOwnProperty categoryCountInit name = true := by
      decide
    simp only [categoryNames, List.mem_cons, List.mem_singleton, forall_eq_or_imp, forall_eq,
      List.not_mem_nil] at h0
    obtain ⟨⟨a1, a2⟩, ⟨b1, b2⟩, ⟨c1, c2⟩, ⟨d1, d2⟩, ⟨e1, e2⟩, -⟩ := h0
    rw [a1, a2, b1, b2, c1, c2, d1, d2, e1, e2]
    have := countP_recognized tasks
    simp only [if_true]
    omega
  · intro task later hrec
    unfold categoryCount
    rw [List.foldl_append, List.foldl_append]
    simp only [List.foldl_cons]
    have hkeys := categoryFold_keys tasks categoryCountInit
    rw [hasOwnProperty_keys _ categoryCountInit _ hkeys]
    have hno : hasOwnProperty categoryCountInit (task.category.getD "undefined") = false := by
      unfold recognizedCategory categoryNames at hrec
      cases hc : task.category with
      | none => decide
      | some c =>
        rw [hc] at hrec
        simp only [List.any_cons, List.any_nil, Bool.or_false, Bool.or_eq_false_iff,
          beq_eq_false_iff_ne, ne_eq, Option.some.injEq] at hrec
        simp only [Option.getD_some, hasOwnProperty, categoryCountInit, List.any_cons,
          List.any_nil, Bool.or_false, Bool.or_eq_false_iff, beq_eq_false_iff_ne, ne_eq]
        obtain ⟨h1, h2, h3, h4, h5⟩ := hrec
        exact ⟨fun h => h1 h.symm, fun h => h2 h.symm, fun h => h3 h.symm,
          fun h => h4 h.symm, fun h => h5 h.symm⟩
    rw [hno]
    simp
  · unfold updateAnalytics
    split_ifs with h
    · exact h.symm
    · rfl


/-! ## Completion rate -/

/-- C7, the code at the failing input: for a snapshot of 40 tasks of which 23 are
completed, `completed / total` is the double just below 0.575, its product with 100 is
the double `8092405580431359 / 2 ^ 47`, just below 57.5, and `Math.round` gives 57, while
`round(100 * 23 / 40)` in exact arithmetic with halves rounded up is 58.  (For the empty
snapshot the rate is 0.) -/
theorem completion_rate_23_of_40 :
    (updateAnalytics
      (List.replicate 23 (sampleTask "a" (some "work") true none none)
        ++ List.replicate 17 (sampleTask "b" (some "work") false none none))).completionRate
      = 57 ∧
    jsMul (jsDiv 23 40) 100 = { m := 8092405580431359, s := 47 } ∧
    (jsMul (jsDiv 23 40) 100).toRat < 115 / 2 ∧
    ⌊(100 * 23 : ℚ) / 40 + 1 / 2⌋ = 58 ∧
    (updateAnalytics []).completionRate = 0 := by
  refine ⟨by decide, by decide, ?_, ?_, by decide⟩
  · have h : jsMul (jsDiv 23 40) 100 = { m := 8092405580431359, s := 47 } := by decide
    rw [h]
    unfold Double.toRat
    norm_num
  · rw [Int.floor_eq_iff]
    norm_num


/-! ## Binary64 rounding: where it is exact -/

theorem log2Fuel_spec (fuel n : Nat) (hfuel : n ≤ fuel) (hn : 0 < n) :
    2 ^ log2Fuel fuel n ≤ n ∧ n < 2 ^ (log2Fuel fuel n + 1) := by
  induction fuel generalizing n with
  | zero => omega
  | succ fuel ih =>
    unfold log2Fuel
    split_ifs with h2
    · constructor
      · simpa using hn
      · simpa using h2
    · have hhalf := ih (n / 2) (by omega) (by omega)
      obtain ⟨lo, hi⟩ := hhalf
      generalize log2Fuel fuel (n / 2) = k at lo hi ⊢
      rw [pow_succ] at hi ⊢
      rw [pow_succ (2 : Nat) (k + 1)]
      rw [pow_succ] at *
      constructor <;> omega

theorem log2Nat_spec (n : Nat) (hn : 0 < n) :
    2 ^ log2Nat n ≤ n ∧ n < 2 ^ (log2Nat n + 1) :=
  log2Fuel_spec n n (le_refl n) hn

/-- The result of `roundHalfEven` is within one half of the quotient. -/
theorem roundHalfEven_spec (n d : Nat) (hd : 0 < d) :
    2 * (roundHalfEven n d * d) ≤ 2 * n + d ∧ 2 * n ≤ 2 * (roundHalfEven n d * d) + d := by
  have hdiv := Nat.div_add_mod n d
  have hmod := Nat.mod_lt n hd
  have hq : (n / d + 1) * d = d * (n / d) + d := by ring
  have hq0 : (n / d) * d = d * (n / d) := by ring
  unfold roundHalfEven
  simp only
  split_ifs
  · rw [hq0]; omega
  · rw [hq]; omega
  · rw [hq0]; omega
  · rw [hq]; omega

/-- `floorLog2 n d` is `u - v` with `2 ^ u / 2 ^ v ≤ n / d < 2 ^ (u + 1) / 2 ^ v`. -/
theorem floorLog2_spec (n d : Nat) (hn : 0 < n) (hd : 0 < d) :
    ∃ u v : Nat, floorLog2 n d = (u : Int) - (v : Int) ∧
      d * 2 ^ u ≤ n * 2 ^ v ∧ n * 2 ^ v < d * 2 ^ (u + 1) := by
  obtain ⟨na, nb⟩ := log2Nat_spec n hn
  obtain ⟨da, db⟩ := log2Nat_spec d hd
  unfold floorLog2
  generalize log2Nat n = a at *
  generalize log2Nat d = b at *
  by_cases hab : b ≤ a
  · obtain ⟨k, rfl⟩ := Nat.exists_eq_add_of_le hab
    have he : ((b + k : Nat) : Int) - (b : Int) = (k : Int) := by omega
    simp only [he, Int.natCast_nonneg, if_true, Int.toNat_ofNat]
    have hpk : 2 ^ (b + k) = 2 ^ b * 2 ^ k := pow_add 2 b k
    have hpk1 : 2 ^ (b + k + 1) = 2 ^ b * 2 ^ (k + 1) := by rw [add_assoc, pow_add]
    have hbk : 2 ^ b * 2 ^ (k + 1) ≤ d * 2 ^ (k + 1) := Nat.mul_le_mul_right _ da
    by_cases hle : d * 2 ^ k ≤ n
    · refine ⟨k, 0, ?_, ?_, ?_⟩
      · simp [hle]
      · simpa using hle
      · rw [hpk1] at nb
        simp only [pow_zero, mul_one]
        omega
    · rw [if_neg hle]
      cases k with
      | zero =>
        refine ⟨0, 1, by simp, ?_, ?_⟩
        · simp only [pow_zero, mul_one, pow_one, add_zero] at *
          rw [pow_succ] at db nb
          omega
        · simp only [pow_zero, mul_one, pow_one, zero_add] at *
          omega
      | succ k =>
        refine ⟨k, 0, by push_cast; ring, ?_, ?_⟩
        · have h1 : d * 2 ^ k < 2 ^ (b + 1) * 2 ^ k :=
            Nat.mul_lt_mul_of_pos_right db (by positivity)
          have h2 : 2 ^ (b + 1) * 2 ^ k = 2 ^ (b + (k + 1)) := by
            rw [← pow_add]; congr 1; omega
          simp only [pow_zero, mul_one]
          omega
        · simp only [pow_zero, mul_one]
          omega
  · have hab2 : a < b := Nat.lt_of_not_le hab
    obtain ⟨j, rfl⟩ := Nat.exists_eq_add_of_le (Nat.le_of_lt hab2)
    have hneg : ¬ (0 : Int) ≤ ((a : Nat) : Int) - ((a + j : Nat) : Int) := by omega
    have he : (-(((a : Nat) : Int) - ((a + j : Nat) : Int))).toNat = j := by omega
    simp only [hneg, if_false, he]
    have hpj : 2 ^ (a + j + 1) = 2 ^ (a + 1) * 2 ^ j := by
      rw [← pow_add]; congr 1; omega
    have hpj2 : 2 ^ (a + j) = 2 ^ a * 2 ^ j := pow_add 2 a j
    have hn1 : n * 2 ^ j < 2 ^ (a + 1) * 2 ^ j :=
      Nat.mul_lt_mul_of_pos_right nb (by positivity)
    have hn2 : 2 ^ a * 2 ^ j ≤ n * 2 ^ j := Nat.mul_le_mul_right _ na
    by_cases hle : d ≤ n * 2 ^ j
    · refine ⟨0, j, ?_, ?_, ?_⟩
      · simp only [hle, if_true]; push_cast; omega
      · simpa using hle
      · rw [hpj] at db
        rw [hpj2] at da
        simp only [zero_add, pow_one]
        omega
    · refine ⟨0, j + 1, ?_, ?_, ?_⟩
      · simp only [hle, if_false]; push_cast; omega
      · rw [hpj] at db
        rw [pow_succ 2 j, pow_succ 2 a] at *
        simp only [pow_zero, mul_one]
        have e1 : 2 ^ a * 2 * 2 ^ j = 2 * (2 ^ a * 2 ^ j) := by ring
        have e2 : n * (2 ^ j * 2) = 2 * (n * 2 ^ j) := by ring
        omega
      · rw [pow_succ 2 j]
        have e2 : n * (2 ^ j * 2) = 2 * (n * 2 ^ j) := by ring
        simp only [zero_add, pow_one]
        omega

/-- Below `2 ^ 53` a quotient is rounded on the grid `1 / 2 ^ s` for the `s ≥ 0` that
scales it into `[2 ^ 52, 2 ^ 53)`. -/
theorem roundBinary64_scaled (n d : Nat) (hn : 0 < n) (hd : 0 < d) (hlt : n < 2 ^ 53 * d) :
    ∃ s : Nat, roundBinary64 n d = { m := roundHalfEven (n * 2 ^ s) d, s := (s : Int) } ∧
      2 ^ 52 * d ≤ n * 2 ^ s ∧ n * 2 ^ s < 2 ^ 53 * d := by
  obtain ⟨u, v, he, hlo, hhi⟩ := floorLog2_spec n d hn hd
  have hV : 0 < 2 ^ v := by positivity
  have hu : u < 53 + v := by
    by_contra hcon
    have h1 : 2 ^ (53 + v) ≤ 2 ^ u := Nat.pow_le_pow_right (by decide) (by omega)
    have h2 : d * 2 ^ (53 + v) ≤ d * 2 ^ u := Nat.mul_le_mul_left _ h1
    have h3 : n * 2 ^ v < 2 ^ 53 * d * 2 ^ v := Nat.mul_lt_mul_of_pos_right hlt hV
    have h4 : d * 2 ^ (53 + v) = 2 ^ 53 * d * 2 ^ v := by rw [pow_add]; ring
    omega
  obtain ⟨s, hs⟩ : ∃ s : Nat, s + u = 52 + v := ⟨52 + v - u, by omega⟩
  have hPU : 2 ^ s * 2 ^ u = 2 ^ 52 * 2 ^ v := by rw [← pow_add, ← pow_add, hs]
  refine ⟨s, ?_, ?_, ?_⟩
  · unfold roundBinary64
    have hn0 : n ≠ 0 := by omega
    have hsc : (52 : Int) - floorLog2 n d = (s : Int) := by rw [he]; omega
    simp only [hn0, if_false, hsc, Int.natCast_nonneg, if_true, Int.toNat_ofNat]
  · have h1 : (2 ^ 52 * d) * 2 ^ v ≤ (n * 2 ^ s) * 2 ^ v := by
      calc (2 ^ 52 * d) * 2 ^ v = d * (2 ^ 52 * 2 ^ v) := by ring
        _ = (d * 2 ^ u) * 2 ^ s := by rw [← hPU]; ring
        _ ≤ (n * 2 ^ v) * 2 ^ s := Nat.mul_le_mul_right _ hlo
        _ = (n * 2 ^ s) * 2 ^ v := by ring
    exact Nat.le_of_mul_le_mul_right h1 hV
  · have h1 : (n * 2 ^ s) * 2 ^ v < (2 ^ 53 * d) * 2 ^ v := by
      calc (n * 2 ^ s) * 2 ^ v = (n * 2 ^ v) * 2 ^ s := by ring
        _ < (d * 2 ^ (u + 1)) * 2 ^ s := Nat.mul_lt_mul_of_pos_right hhi (by positivity)
        _ = d * (2 * (2 ^ s * 2 ^ u)) := by rw [pow_succ]; ring
        _ = (2 ^ 53 * d) * 2 ^ v := by rw [hPU]; ring
    exact Nat.lt_of_mul_lt_mul_right h1

/-- `Math.ceil(a / d)` is the exact ceiling of the quotient for `a < 2 ^ 53`. -/
theorem mathCeil_jsDiv (a d : Nat) (hd : 0 < d) (ha : a < 2 ^ 53) :
    mathCeil (jsDiv a d) = (a + d - 1) / d := by
  rcases Nat.eq_zero_or_pos a with h0 | hpos
  · subst h0
    have : (0 + d - 1) / d = 0 := Nat.div_eq_of_lt (by omega)
    rw [this]
    simp [jsDiv, roundBinary64, mathCeil]
  have hlt : a < 2 ^ 53 * d := by
    calc a < 2 ^ 53 := ha
      _ ≤ 2 ^ 53 * d := Nat.le_mul_of_pos_right _ hd
  obtain ⟨s, hr, hlo, hhi⟩ := roundBinary64_scaled a d hpos hd hlt
  obtain ⟨r1, r2⟩ := roundHalfEven_spec (a * 2 ^ s) d hd
  unfold jsDiv
  rw [hr]
  unfold mathCeil
  simp only [Int.natCast_nonneg, if_true, Int.toNat_ofNat]
  generalize roundHalfEven (a * 2 ^ s) d = m at *
  have hP : 0 < 2 ^ s := by positivity
  generalize 2 ^ s = P at *
  have hdm := Nat.div_add_mod (a + d - 1) d
  have hmod := Nat.mod_lt (a + d - 1) hd
  generalize (a + d - 1) / d = k at *
  generalize (a + d - 1) % d = r at *
  have haP : a * P < 2 ^ 53 * P := Nat.mul_lt_mul_of_pos_right ha hP
  apply Nat.div_eq_of_lt_le
  · -- (k - 1) * P < m
    by_contra hcon
    have hk0 : 0 < k := by
      rcases Nat.eq_zero_or_pos k with h | h
      · subst h; omega
      · exact h
    obtain ⟨j, rfl⟩ : ∃ j, k = j + 1 := ⟨k - 1, by omega⟩
    have hm : m ≤ j * P := by
      have : (j + 1) * P = j * P + P := by ring
      omega
    have h1 : m * d ≤ j * P * d := Nat.mul_le_mul_right _ hm
    have h2 : (d * j + 1) * P ≤ a * P := Nat.mul_le_mul_right _ (by
      have : d * (j + 1) = d * j + d := by ring
      omega)
    have h3 : (d * j + 1) * P = j * P * d + P := by ring
    omega
  · -- m ≤ k * P
    by_contra hcon
    have hm : k * P + 1 ≤ m := by
      have : (k + 1) * P = k * P + P := by ring
      omega
    have h1 : (k * P + 1) * d ≤ m * d := Nat.mul_le_mul_right _ hm
    have h2 : a * P ≤ (d * k) * P := Nat.mul_le_mul_right _ (by omega)
    have h3 : (k * P + 1) * d = (d * k) * P + d := by ring
    omega

/-- `Math.round(t / n)` is the exact quotient rounded half up for `t < 2 ^ 52`. -/
theorem mathRound_jsDiv (t n : Nat) (hn : 0 < n) (ht : t < 2 ^ 52) :
    mathRound (jsDiv t n) = (2 * t + n) / (2 * n) := by
  rcases Nat.eq_zero_or_pos t with h0 | hpos
  · subst h0
    have : (2 * 0 + n) / (2 * n) = 0 := Nat.div_eq_of_lt (by omega)
    rw [this]
    simp [jsDiv, roundBinary64, mathRound]
  have hlt : t < 2 ^ 53 * n := by
    calc t < 2 ^ 52 := ht
      _ ≤ 2 ^ 53 := by decide
      _ ≤ 2 ^ 53 * n := Nat.le_mul_of_pos_right _ hn
  obtain ⟨s, hr, hlo, hhi⟩ := roundBinary64_scaled t n hpos hn hlt
  obtain ⟨r1, r2⟩ := roundHalfEven_spec (t * 2 ^ s) n hn
  unfold jsDiv
  rw [hr]
  unfold mathRound
  simp only [Int.natCast_nonneg, if_true, Int.toNat_ofNat]
  generalize roundHalfEven (t * 2 ^ s) n = m at *
  have htP : t * 2 ^ s < 2 ^ 52 * 2 ^ s := Nat.mul_lt_mul_of_pos_right ht (by positivity)
  have hs : 0 < s := by
    rcases Nat.eq_zero_or_pos s with h | h
    · subst h
      simp only [pow_zero, mul_one] at *
      omega
    · exact h
  have hP2 : ∃ Q, 0 < Q ∧ 2 ^ s = Q * 2 :=
    ⟨2 ^ (s - 1), by positivity, by rw [← pow_succ]; congr 1; omega⟩
  generalize 2 ^ s = P at *
  obtain ⟨Q, hQ, rfl⟩ := hP2
  have hdm := Nat.div_add_mod (2 * t + n) (2 * n)
  have hmod := Nat.mod_lt (2 * t + n) (show 0 < 2 * n by omega)
  generalize (2 * t + n) / (2 * n) = k at *
  generalize (2 * t + n) % (2 * n) = r at *
  have e0 : 2 * n * k = 2 * (n * k) := by ring
  have e1 : t * (Q * 2) = 2 * (t * Q) := by ring
  have hnQ : n < Q * 2 := by
    by_contra hcon
    have : 2 ^ 52 * (Q * 2) ≤ 2 ^ 52 * n := Nat.mul_le_mul_left _ (by omega)
    omega
  apply Nat.div_eq_of_lt_le
  · -- k * (2 * P) ≤ 2 * m + P, with P = 2 * Q
    by_contra hcon
    have hm : m + Q + 1 ≤ 2 * (k * Q) := by
      have : k * (2 * (Q * 2)) = 4 * (k * Q) := by ring
      omega
    have h1 : (m + Q + 1) * n ≤ 2 * (k * Q) * n := Nat.mul_le_mul_right _ hm
    have h2 : (2 * (n * k)) * Q ≤ (2 * t + n) * Q := Nat.mul_le_mul_right _ (by omega)
    have h3 : (m + Q + 1) * n = m * n + n * Q + n := by ring
    have h4 : 2 * (k * Q) * n = 2 * (n * k * Q) := by ring
    have h5 : (2 * (n * k)) * Q = 2 * (n * k * Q) := by ring
    have h6 : (2 * t + n) * Q = 2 * (t * Q) + n * Q := by ring
    omega
  · -- 2 * m + P < (k + 1) * (2 * P)
    by_contra hcon
    have hm : 2 * (k * Q) + Q ≤ m := by
      have : (k + 1) * (2 * (Q * 2)) = 4 * (k * Q) + 4 * Q := by ring
      omega
    have h1 : (2 * (k * Q) + Q) * n ≤ m * n := Nat.mul_le_mul_right _ hm
    have h2 : (2 * t + n + 1) * Q ≤ (2 * (n * k) + 2 * n) * Q :=
      Nat.mul_le_mul_right _ (by omega)
    have h3 : (2 * (k * Q) + Q) * n = 2 * (n * k * Q) + n * Q := by ring
    have h5 : (2 * (n * k) + 2 * n) * Q = 2 * (n * k * Q) + 2 * (n * Q) := by ring
    have h6 : (2 * t + n + 1) * Q = 2 * (t * Q) + n * Q + Q := by ring
    omega


/-! ## Average completion time -/

theorem ceilDiv_cast (a d : Nat) (hd : 0 < d) :
    (((a + d - 1) / d : Nat) : Int) = ⌈(a : ℚ) / (d : ℚ)⌉ := by
  symm
  rw [Int.ceil_eq_iff]
  have hdm := Nat.div_add_mod (a + d - 1) d
  have hmod := Nat.mod_lt (a + d - 1) hd
  generalize (a + d - 1) / d = k at *
  generalize (a + d - 1) % d = r at *
  have hdq : (0 : ℚ) < (d : ℚ) := by exact_mod_cast hd
  constructor
  · rw [lt_div_iff₀ hdq]
    have h1 : (k : Int) * d < a + d := by
      have : d * k < a + d := by omega
      have e : k * d = d * k := Nat.mul_comm _ _
      exact_mod_cast (e ▸ this)
    have h2 : ((k : Int) : ℚ) * d < a + d := by exact_mod_cast h1
    push_cast at h2 ⊢
    linarith
  · rw [div_le_iff₀ hdq]
    have h1 : a ≤ k * d := by
      have e : k * d = d * k := Nat.mul_comm _ _
      omega
    exact_mod_cast h1

theorem roundDiv_cast (t n : Nat) (hn : 0 < n) :
    (((2 * t + n) / (2 * n) : Nat) : Int) = ⌊(t : ℚ) / (n : ℚ) + 1 / 2⌋ := by
  symm
  rw [Int.floor_eq_iff]
  have hdm := Nat.div_add_mod (2 * t + n) (2 * n)
  have hmod := Nat.mod_lt (2 * t + n) (show 0 < 2 * n by omega)
  generalize (2 * t + n) / (2 * n) = k at *
  generalize (2 * t + n) % (2 * n) = r at *
  have hnq : (0 : ℚ) < (n : ℚ) := by exact_mod_cast hn
  have e : 2 * n * k = 2 * (n * k) := by ring
  have h1 : 2 * (n * k) ≤ 2 * t + n := by omega
  have h2 : 2 * t + n < 2 * (n * k) + 2 * n := by omega
  have h1q : 2 * ((n : ℚ) * k) ≤ 2 * t + n := by exact_mod_cast h1
  have h2q : 2 * (t : ℚ) + n < 2 * ((n : ℚ) * k) + 2 * n := by exact_mod_cast h2
  have hk : ((k : Int) : ℚ) = (k : ℚ) := by norm_cast
  rw [hk]
  constructor
  · have : (k : ℚ) - 1 / 2 ≤ (t : ℚ) / n := by
      rw [le_div_iff₀ hnq]
      linarith
    linarith
  · have : (t : ℚ) / n < (k : ℚ) + 1 / 2 := by
      rw [div_lt_iff₀ hnq]
      linarith
    linarith

theorem completionTimes_fold (tasks : List Task) (acc : Nat × Nat) :
    tasks.foldl
      (fun (acc : Nat × Nat) task =>
        match task.completed, task.createdAt, task.completedAt with
        | true, some created, some completed =>
          (acc.1 + diffDays created completed, acc.2 + 1)
        | _, _, _ => acc) acc
      = (acc.1 + ((tasks.filter qualifies).map taskDiffDays).sum,
         acc.2 + (tasks.filter qualifies).length) := by
  induction tasks generalizing acc with
  | nil => simp
  | cons task rest ih =>
    simp only [List.foldl_cons]
    rw [ih]
    unfold qualifies taskDiffDays
    cases hc : task.completed <;> cases hr : task.createdAt <;> cases hd : task.completedAt <;>
      simp [List.filter_cons, hc, hr, hd, qualifies, taskDiffDays]
    omega

theorem completionTimes_eq (tasks : List Task) :
    completionTimes tasks
      = (((tasks.filter qualifies).map taskDiffDays).sum, (tasks.filter qualifies).length) := by
  unfold completionTimes
  rw [completionTimes_fold]
  simp

theorem msPerDay_toNat : msPerDay.toNat = 86400000 := by decide

/-- For stored timestamps the computed `diffDays` is the exact ceiling of the elapsed
days, and it is below `2 ^ 22`. -/
theorem diffDays_exact (created completed : Int) (h1 : validTime created = true)
    (h2 : validTime completed = true) :
    (diffDays created completed : Int) = ⌈((|completed - created| : Int) : ℚ) / 86400000⌉ ∧
    diffDays created completed ≤ 3652059 := by
  unfold validTime at h1 h2
  simp only [decide_eq_true_eq] at h1 h2
  unfold diffDays
  simp only [msPerDay_toNat]
  have ha : (completed - created).natAbs < 2 ^ 53 := by
    have : (2 : Nat) ^ 53 = 9007199254740992 := by norm_num
    omega
  rw [mathCeil_jsDiv _ _ (by decide) ha]
  constructor
  · rw [ceilDiv_cast _ _ (by decide)]
    have e : (((completed - created).natAbs : Nat) : ℚ) = ((|completed - created| : Int) : ℚ) := by
      rw [← Int.natCast_natAbs, Int.cast_natCast]
    rw [e]
    norm_num
  · omega

theorem taskDiffDays_exact (task : Task)
    (hv : (task.createdAt.all validTime && task.completedAt.all validTime) = true) :
    (taskDiffDays task : Int) = exactDays task ∧ taskDiffDays task ≤ 3652059 := by
  unfold taskDiffDays exactDays
  cases hr : task.createdAt <;> cases hd : task.completedAt <;>
    simp only [hr, hd, Option.all_some, Option.all_none, Bool.and_eq_true] at hv ⊢
  · exact ⟨rfl, by omega⟩
  · exact ⟨rfl, by omega⟩
  · exact ⟨rfl, by omega⟩
  · exact diffDays_exact _ _ hv.1 hv.2

theorem sum_taskDiffDays (tasks : List Task) (hv : validTimes tasks = true) :
    ((tasks.map taskDiffDays).sum : Int) = (tasks.map exactDays).sum ∧
    (tasks.map taskDiffDays).sum ≤ tasks.length * 3652059 := by
  induction tasks with
  | nil => simp
  | cons task rest ih =>
    unfold validTimes at hv ih
    simp only [List.all_cons, Bool.and_eq_true] at hv
    obtain ⟨e1, b1⟩ := taskDiffDays_exact task (by simpa using hv.1)
    obtain ⟨e2, b2⟩ := ih hv.2
    simp only [List.map_cons, List.sum_cons, List.length_cons]
    constructor
    · rw [Nat.cast_add, e1, e2]
    · omega

theorem validTimes_filter (tasks : List Task) (p : Task → Bool)
    (hv : validTimes tasks = true) : validTimes (tasks.filter p) = true := by
  unfold validTimes at *
  rw [List.all_eq_true] at *
  intro task hmem
  exact hv task (List.mem_of_mem_filter hmem)

/-- C3: for a snapshot of stored timestamps (at most `2 ^ 30` tasks), the displayed average
is 0 when no task is completed with both timestamps known, and otherwise it is the mean of
`ceil(|completedAt - createdAt| / 86400000)` over exactly those tasks, rounded to the
nearest integer (a half going up).  A task completed exactly 3 days after creation
contributes 3, zero elapsed time contributes 0, an elapsed time strictly between 0 and one
day contributes 1, and swapping the two timestamps does not change the contribution. -/
theorem average_completion_days (tasks : List Task) (hlen : tasks.length ≤ 2 ^ 30)
    (hvalid : validTimes tasks = true) :
    (tasks.filter qualifies = [] → (updateAnalytics tasks).avgCompletionTime = 0) ∧
    (tasks.filter qualifies ≠ [] →
      ((updateAnalytics tasks).avgCompletionTime : Int)
        = ⌊((((tasks.filter qualifies).map exactDays).sum : Int) : ℚ)
            / ((tasks.filter qualifies).length : ℚ) + 1 / 2⌋) ∧
    (∀ created completed : Int, validTime created = true → validTime completed = true →
      (diffDays created completed : Int)
        = ⌈((|completed - created| : Int) : ℚ) / 86400000⌉) ∧
    (∀ created : Int, diffDays created (created + 3 * msPerDay) = 3) ∧
    (∀ created : Int, diffDays created created = 0) ∧
    (∀ created completed : Int, 0 < |completed - created| → |completed - created| < msPerDay →
      diffDays created completed = 1) ∧
    (∀ created completed : Int, diffDays created completed = diffDays completed created) := by
  have htimes := completionTimes_eq tasks
  have hq := validTimes_filter tasks qualifies hvalid
  obtain ⟨hsum, hbound⟩ := sum_taskDiffDays (tasks.filter qualifies) hq
  have hcount : (tasks.filter qualifies).length ≤ tasks.length := List.length_filter_le _ _
  refine ⟨?_, ?_, ?_, ?_, ?_, ?_, ?_⟩
  · intro hnone
    unfold updateAnalytics
    split_ifs with h0
    · rfl
    · simp only [htimes, hnone]
      rfl
  · intro hsome
    have hpos : 0 < (tasks.filter qualifies).length := List.length_pos.mpr hsome
    have hne : ¬ tasks.length = 0 := by omega
    unfold updateAnalytics
    simp only [hne, if_false, htimes, gt_iff_lt, hpos, if_true]
    have hlt : ((tasks.filter qualifies).map taskDiffDays).sum < 2 ^ 52 := by
      have h1 : (tasks.filter qualifies).length * 3652059 ≤ 2 ^ 30 * 3652059 :=
        Nat.mul_le_mul_right _ (le_trans hcount hlen)
      have h2 : 2 ^ 30 * 3652059 < 2 ^ 52 := by norm_num
      omega
    rw [mathRound_jsDiv _ _ hpos hlt, roundDiv_cast _ _ hpos, ← hsum, Int.cast_natCast]
  · intro created completed h1 h2
    exact (diffDays_exact created completed h1 h2).1
  · intro created
    unfold diffDays
    have e : (created + 3 * msPerDay - created).natAbs = 259200000 := by
      rw [msPerDay_eq]; omega
    rw [e]
    decide
  · intro created
    unfold diffDays
    have e : (created - created).natAbs = 0 := by omega
    rw [e]
    decide
  · intro created completed h1 h2
    unfold diffDays
    rw [msPerDay_eq, Int.abs_eq_natAbs] at h2
    rw [Int.abs_eq_natAbs] at h1
    have ha : (completed - created).natAbs < 2 ^ 53 := by
      have : (2 : Nat) ^ 53 = 9007199254740992 := by norm_num
      omega
    rw [msPerDay_toNat, mathCeil_jsDiv _ _ (by decide) ha]
    omega
  · intro created completed
    unfold diffDays
    have e : (completed - created).natAbs = (created - completed).natAbs := by omega
    rw [e]

/-- Witness for C3: one task created Sunday 08:00 and completed Wednesday 12:00 (four
started days), one open task. -/
theorem average_completion_days_witness :
    ((updateAnalytics
      [sampleTask "a" (some "work") true (some sundayMorning) (some wednesdayNoon),
       sampleTask "b" (some "work") false (some mondayMorning) none]).avgCompletionTime : Int)
      = ⌊(((([sampleTask "a" (some "work") true (some sundayMorning) (some wednesdayNoon),
              sampleTask "b" (some "work") false (some mondayMorning) none].filter
                qualifies).map exactDays).sum : Int) : ℚ)
          / (([sampleTask "a" (some "work") true (some sundayMorning) (some wednesdayNoon),
              sampleTask "b" (some "work") false (some mondayMorning) none].filter
                qualifies).length : ℚ) + 1 / 2⌋ :=
  (average_completion_days
    [sampleTask "a" (some "work") true (some sundayMorning) (some wednesdayNoon),
     sampleTask "b" (some "work") false (some mondayMorning) none]
    (by decide) (by decide)).2.1 (by decide)


/-! ## Renaming a task -/

/-- C11: the edit handler submits an update exactly when the prompt was not cancelled and
the trimmed new text is non-empty; the update is the single `updateDoc` on the task whose
only field is `text`, the trimmed new text; applied by the store it replaces `text` and
leaves id, owner, category, completed, createdAt and completedAt as they were.  The
handler never changes the globals. -/
theorem rename_request (st : AppState) (task : Task) (promptResult : Option String)
    (outcome : Except String Unit) :
    ((editClick st task promptResult outcome).requests ≠ []
      ↔ ∃ newText, promptResult = some newText ∧ jsTrim newText ≠ "") ∧
    (∀ newText : String, promptResult = some newText → jsTrim newText ≠ "" →
      (editClick st task promptResult outcome).requests
        = [Request.updateDoc "tasks" task.id
            { text := some (jsTrim newText), completed := none, completedAt := none }]) ∧
    (∀ (serverTime : Int) (newText : String),
      (applyUpdate serverTime
        { text := some (jsTrim newText), completed := none, completedAt := none } task).text
        = jsTrim newText ∧
      (applyUpdate serverTime
        { text := some (jsTrim newText), completed := none, completedAt := none } task).id
        = task.id ∧
      (applyUpdate serverTime
        { text := some (jsTrim newText), completed := none, completedAt := none } task).userId
        = task.userId ∧
      (applyUpdate serverTime
        { text := some (jsTrim newText), completed := none, completedAt := none } task).category
        = task.category ∧
      (applyUpdate serverTime
        { text := some (jsTrim newText), completed := none, completedAt := none } task).completed
        = task.completed ∧
      (applyUpdate serverTime
        { text := some (jsTrim newText), completed := none, completedAt := none } task).createdAt
        = task.createdAt ∧
      (applyUpdate serverTime
        { text := some (jsTrim newText), completed := none,
          completedAt := none } task).completedAt
        = task.completedAt) ∧
    (editClick st task promptResult outcome).state = st := by
  refine ⟨?_, ?_, ?_, ?_⟩
  · unfold editClick
    cases promptResult with
    | none => simp
    | some newText =>
      by_cases h : jsTrim newText = ""
      · simp [h]
      · cases outcome <;> simp [h]
  · intro newText hp hne
    subst hp
    unfold editClick
    cases outcome <;> simp [hne]
  · intro serverTime newText
    simp [applyUpdate]
  · unfold editClick
    cases promptResult with
    | none => rfl
    | some newText =>
      by_cases h : jsTrim newText = ""
      · simp [h]
      · cases outcome <;> simp [h]

/-! ## Summary counts -/

theorem renderStats_fold (tasks : List Task) (acc : Nat × Nat) :
    tasks.foldl
      (fun (acc : Nat × Nat) task =>
        (acc.1 + 1, if task.completed then acc.2 + 1 else acc.2)) acc
      = (acc.1 + tasks.length, acc.2 + tasks.countP (fun task => task.completed)) := by
  induction tasks generalizing acc with
  | nil => simp
  | cons task rest ih =>
    simp only [List.foldl_cons, List.length_cons, List.countP_cons]
    rw [ih]
    cases task.completed <;> simp <;> omega

/-- C14: the statistics of `renderTasks` are the snapshot length, the number of completed
tasks, and their difference, which is the number of tasks that are not completed; the
completion chart shows the same two counts.  Tasks with an unrecognized category or
unknown dates are counted like any other. -/
theorem summary_counts (st : AppState) :
    (renderStats st).1 = st.tasks.length ∧
    (renderStats st).2.1 = st.tasks.countP (fun task => task.completed) ∧
    (renderStats st).2.2 = ((renderStats st).1 : Int) - ((renderStats st).2.1 : Int) ∧
    (renderStats st).2.2 = (st.tasks.countP (fun task => !task.completed) : Int) ∧
    completionChartData st.tasks
      = [st.tasks.countP (fun task => task.completed),
         st.tasks.countP (fun task => !task.completed)] ∧
    renderStats { AppState.init with tasks :=
      [sampleTask "a" (some "urgent") true none none,
       sampleTask "b" none false none none,
       sampleTask "c" (some "work") false (some sundayMorning) none] } = (3, 1, 2) := by
  have hfold := renderStats_fold st.tasks (0, 0)
  have hsplit := List.length_eq_countP_add_countP (fun task : Task => task.completed) st.tasks
  have hnot : st.tasks.countP (fun task => !task.completed)
      = st.tasks.countP (fun task => ¬ task.completed = true) := by
    congr 1
    funext task
    cases task.completed <;> simp
  refine ⟨?_, ?_, ?_, ?_, ?_, by decide⟩
  · unfold renderStats
    simp only [hfold]
    omega
  · unfold renderStats
    simp only [hfold]
    omega
  · unfold renderStats
    simp only [hfold]
  · unfold renderStats
    simp only [hfold, hnot]
    omega
  · unfold completionChartData
    simp only [List.countP_eq_length_filter]


/-! ## Weekly rotation -/

/-- C15: the weekly result is the Sunday-indexed seven-entry week rotated left by one:
entry `i` is the Sunday-indexed count at `(i + 1) mod 7`, so Sunday's count is last and
label `i` is the name of weekday `(i + 1) mod 7`; the sum of the counts is the sum of the
week; and the Sunday-indexed count at `j` is the number of counted tasks completed on
weekday `j`. -/
theorem weekly_rotation (tasks : List Task) (now : Int) :
    (weekData tasks now).length = 7 ∧
    (getWeeklyProductivityData tasks now).data.length = 7 ∧
    (∀ i : Nat, i < 7 →
      (getWeeklyProductivityData tasks now).data.getD i 0
        = (weekData tasks now).getD ((i + 1) % 7) 0) ∧
    (getWeeklyProductivityData tasks now).data.getD 6 0 = (weekData tasks now).getD 0 0 ∧
    (getWeeklyProductivityData tasks now).data.sum = (weekData tasks now).sum ∧
    (getWeeklyProductivityData tasks now).labels
      = ["Mon", "Tue", "Wed", "Thu", "Fri", "Sat", "Sun"] ∧
    (∀ i : Nat, i < 7 →
      (getWeeklyProductivityData tasks now).labels.getD i ""
        = daysOfWeek.getD ((i + 1) % 7) "") ∧
    (∀ j : Nat, j < 7 →
      (weekData tasks now).getD j 0
        = tasks.countP (fun task => weekIndex now task == some j)) := by
  obtain ⟨a, b, c, d, e, f, g, hw, hd⟩ := weekly_data_eq tasks now
  rw [hd, hw]
  refine ⟨rfl, rfl, ?_, rfl, ?_, rfl, ?_, ?_⟩
  · intro i hi
    interval_cases i <;> rfl
  · simp only [List.sum_cons, List.sum_nil]
    omega
  · intro i hi
    interval_cases i <;> rfl
  · intro j hj
    rw [← hw, weekData_eq_tally]
    exact tally_getD (weekIndex now) 7 tasks j hj

/-! ## The task subscription -/

/-- C12, the code at the failing inputs: the auth callback for a user always opens a new
subscription and cancels none, and the auth callback for a signed-out state cancels none
and keeps the stored unsubscribe function.  So after user, signed-out (without the
sign-out button), user, two subscriptions are open (0 and 1) and only the second can still
be cancelled; the same after two user events in a row.  Through the sign-out button the
first subscription is cancelled before the second is opened. -/
theorem second_subscription_without_cancel :
    (∀ (s : Session) (user : User),
      (sessionStep s (SessionEvent.authUser user)).live = s.live ++ [s.opened]) ∧
    (∀ s : Session,
      (sessionStep s SessionEvent.authSignedOut).live = s.live ∧
      (sessionStep s SessionEvent.authSignedOut).unsubscribeTasks = s.unsubscribeTasks) ∧
    (sessionRun [SessionEvent.authUser userOne, SessionEvent.authSignedOut,
      SessionEvent.authUser userOne]).live = [0, 1] ∧
    (sessionRun [SessionEvent.authUser userOne, SessionEvent.authSignedOut,
      SessionEvent.authUser userOne]).unsubscribeTasks = some 1 ∧
    (sessionRun [SessionEvent.authUser userOne, SessionEvent.authUser userTwo]).live
      = [0, 1] ∧
    (sessionRun [SessionEvent.authUser userOne, SessionEvent.signOutButton (Except.ok ()),
      SessionEvent.authSignedOut, SessionEvent.authUser userOne]).live = [1] := by
  refine ⟨?_, ?_, by decide, by decide, by decide, by decide⟩
  · intro s user
    simp [sessionStep, authStateChanged, loadTasks]
  · intro s
    simp [sessionStep, authStateChanged]


/-! ## Backend errors -/

/-- A text that ends with `message` contains it. -/
theorem containsText_append (before message : String) :
    containsText (before ++ message) message = true := by
  unfold containsText
  rw [List.any_eq_true]
  refine ⟨message.data, ?_, ?_⟩
  · rw [List.mem_tails, String.data_append]
    exact List.suffix_append _ _
  · rw [List.isPrefixOf_iff_prefix]

/-- C13, counterexample: a sign-in that the backend rejects with the message
`Firebase: Error (auth/network-request-failed).` shows `Invalid email or password`, which
does not contain the backend's message. -/
theorem login_failure_hides_backend_message :
    (loginClick "one@example.com" "secret1"
      (Except.error "Firebase: Error (auth/network-request-failed).")).errorText
      = some "Invalid email or password" ∧
    (loginClick "one@example.com" "secret1"
      (Except.error "Firebase: Error (auth/network-request-failed).")).shown = none ∧
    containsText "Invalid email or password"
      "Firebase: Error (auth/network-request-failed)." = false := by
  decide

/-- C13 as amended: when the backend rejects a create, a toggle, a rename, a delete, a
step of sign-up or a sign-out with `message`, the text shown is a fixed prefix followed by
`message` (so it contains `message`), and the rejected call was made once; a rejected
sign-in was made once too and shows the fixed text `Invalid email or password`. -/
theorem backend_errors_surfaced (message : String) :
    (∀ (st : AppState) (user : User) (inputValue category : String),
      st.currentUser = some user → jsTrim inputValue ≠ "" →
      (addTaskClick st inputValue category (Except.error message)).shown
        = some ("Error adding task: " ++ message, false) ∧
      containsText ("Error adding task: " ++ message) message = true ∧
      (addTaskClick st inputValue category (Except.error message)).requests.length = 1) ∧
    (∀ (st : AppState) (task : Task) (checked : Bool),
      (toggleChange st task checked (Except.error message)).shown
        = some ("Error updating task: " ++ message, false) ∧
      containsText ("Error updating task: " ++ message) message = true ∧
      (toggleChange st task checked (Except.error message)).requests.length = 1) ∧
    (∀ (st : AppState) (task : Task) (newText : String), jsTrim newText ≠ "" →
      (editClick st task (some newText) (Except.error message)).shown
        = some ("Error updating task: " ++ message, false) ∧
      (editClick st task (some newText) (Except.error message)).requests.length = 1) ∧
    (∀ (st : AppState) (task : Task),
      (deleteClick st task true (Except.error message)).shown
        = some ("Error deleting task: " ++ message, false) ∧
      containsText ("Error deleting task: " ++ message) message = true ∧
      (deleteClick st task true (Except.error message)).requests
        = [Request.deleteDoc "tasks" task.id]) ∧
    (∀ (name email password : String) (uid : String)
      (profiled stored : Except String Unit),
      name ≠ "" → ¬ utf16Length password < 6 → email ≠ "" → password ≠ "" →
      (signupClick name email password password (Except.error message) profiled stored)
        = { calls := [AuthRequest.createUser email password],
            errorText := some ("Error creating account: " ++ message), shown := none } ∧
      (signupClick name email password password (Except.ok uid) (Except.error message) stored)
        = { calls := [AuthRequest.createUser email password,
              AuthRequest.updateProfile uid name],
            errorText := some ("Error creating account: " ++ message), shown := none } ∧
      (signupClick name email password password (Except.ok uid) (Except.ok ())
          (Except.error message))
        = { calls := [AuthRequest.createUser email password,
              AuthRequest.updateProfile uid name, AuthRequest.setUserDoc uid name email],
            errorText := some ("Error creating account: " ++ message), shown := none } ∧
      containsText ("Error creating account: " ++ message) message = true) ∧
    (∀ s : Session,
      (signOutClick s (Except.error message)).shown
        = some ("Error signing out: " ++ message, false) ∧
      containsText ("Error signing out: " ++ message) message = true ∧
      (signOutClick s (Except.error message)).calls = s.calls ++ [AuthRequest.signOut]) ∧
    (∀ email password : String, email ≠ "" → password ≠ "" →
      (loginClick email password (Except.error message))
        = { calls := [AuthRequest.signIn email password],
            errorText := some "Invalid email or password", shown := none }) := by
  refine ⟨?_, ?_, ?_, ?_, ?_, ?_, ?_⟩
  · intro st user inputValue category hu hne
    refine ⟨?_, containsText_append _ _, ?_⟩ <;> simp [addTaskClick, hu, hne]
  · intro st task checked
    exact ⟨rfl, containsText_append _ _, rfl⟩
  · intro st task newText hne
    constructor <;> simp [editClick, hne]
  · intro st task
    exact ⟨rfl, containsText_append _ _, rfl⟩
  · intro name email password uid profiled stored hname hlen hemail hpass
    refine ⟨?_, ?_, ?_, containsText_append _ _⟩ <;>
      simp [signupClick, hname, hlen, hemail, hpass]
  · intro s
    refine ⟨?_, containsText_append _ _, ?_⟩
    · unfold signOutClick
      cases s.unsubscribeTasks <;> rfl
    · unfold signOutClick
      cases s.unsubscribeTasks <;> rfl
  · intro email password hemail hpass
    simp [loginClick, hemail, hpass]


/-! ## Month labels -/

theorem DayFromYear_succ (y : Int) : DayFromYear (y + 1) = DayFromYear y + DaysInYear y := by
  unfold DayFromYear DaysInYear
  split_ifs <;> omega

theorem DaysInYear_pos (y : Int) : DaysInYear y = 365 + leapOffset y := by
  unfold leapOffset DaysInYear
  split_ifs <;> omega

theorem DayFromYear_lt (y z : Int) (h : y < z) : DayFromYear y < DayFromYear z := by
  unfold DayFromYear
  omega

/-- The year of a time value is determined by the year range its day falls into. -/
theorem YearFromTime_unique (t y : Int) (hlo : DayFromYear y ≤ Day t)
    (hhi : Day t < DayFromYear (y + 1)) : YearFromTime t = y := by
  obtain ⟨h1, h2⟩ := YearFromTime_spec t
  by_contra hne
  rcases lt_or_gt_of_ne hne with hlt | hgt
  · have hle : YearFromTime t + 1 ≤ y := by omega
    rcases eq_or_lt_of_le hle with heq | hlt2
    · rw [heq] at h2; omega
    · have := DayFromYear_lt _ _ hlt2
      omega
  · have hle : y + 1 ≤ YearFromTime t := by omega
    rcases eq_or_lt_of_le hle with heq | hlt2
    · rw [← heq] at h1; omega
    · have := DayFromYear_lt _ _ hlt2
      omega

theorem monthStart_spec (m l : Int) (hm0 : 0 ≤ m) (hm1 : m ≤ 11) (hl : l = 0 ∨ l = 1) :
    0 ≤ monthStart m l ∧ monthStart m l < 365 + l ∧ monthFromDay (monthStart m l) l = m := by
  rcases hl with rfl | rfl <;> interval_cases m <;> decide

/-- The first day of month `month` (any integer index) of year `year`, as a time value,
lies in year `year + month / 12` and month `month % 12`. -/
theorem firstOfMonth_fields (year month : Int) :
    YearFromTime (MakeDate (MakeDay year month 1) 0) = year + month / 12 ∧
    MonthFromTime (MakeDate (MakeDay year month 1) 0) = month % 12 := by
  have hl : leapOffset (year + month / 12) = 0 ∨ leapOffset (year + month / 12) = 1 := by
    unfold leapOffset
    split_ifs
    · exact Or.inr rfl
    · exact Or.inl rfl
  obtain ⟨s0, s1, s2⟩ := monthStart_spec (month % 12) (leapOffset (year + month / 12))
    (by omega) (by omega) hl
  have hday : Day (MakeDate (MakeDay year month 1) 0)
      = DayFromYear (year + month / 12)
        + monthStart (month % 12) (leapOffset (year + month / 12)) := by
    unfold Day MakeDate MakeDay
    rw [msPerDay_eq]
    simp only
    omega
  have hyear : YearFromTime (MakeDate (MakeDay year month 1) 0) = year + month / 12 := by
    apply YearFromTime_unique
    · rw [hday]; omega
    · rw [hday, DayFromYear_succ, DaysInYear_pos]; omega
  refine ⟨hyear, ?_⟩
  unfold MonthFromTime DayWithinYear InLeapYear
  rw [hyear, hday]
  have e : DayFromYear (year + month / 12)
      + monthStart (month % 12) (leapOffset (year + month / 12))
      - DayFromYear (year + month / 12)
      = monthStart (month % 12) (leapOffset (year + month / 12)) := by omega
  rw [e]
  exact s2


/-- The label built for the month `k` months before the month of `now` is the name of the
calendar month lying `k` months before it. -/
theorem label_names_month (now k : Int)
    (hyear : ¬ (0 ≤ getFullYear now ∧ getFullYear now ≤ 99)) :
    formatMonthYear (newDateYM (getFullYear now) (getMonth now - k))
      = monthName (yearBefore now k) (monthBefore now k) := by
  obtain ⟨hy, hm⟩ := firstOfMonth_fields (getFullYear now) (getMonth now - k)
  unfold formatMonthYear newDateYM
  simp only [hyear, if_false]
  unfold monthName yearBefore monthBefore
  have e1 : getFullYear (MakeDate (MakeDay (getFullYear now) (getMonth now - k) 1) 0)
      = (getFullYear now * 12 + getMonth now - k) / 12 := by
    show YearFromTime _ = _
    rw [hy]; omega
  have e2 : getMonth (MakeDate (MakeDay (getFullYear now) (getMonth now - k) 1) 0)
      = (getFullYear now * 12 + getMonth now - k) % 12 := by
    show MonthFromTime _ = _
    rw [hm]; omega
  rw [e1, e2]

/-- A task was created `k` months before the month of `now` exactly when its `createdAt`
has the year and month of the calendar month lying `k` months before. -/
theorem createdMonthsAgo_eq (now k : Int) (task : Task) :
    createdMonthsAgo now k task = createdInMonth (yearBefore now k) (monthBefore now k) task := by
  unfold createdMonthsAgo createdInMonth yearBefore monthBefore
  cases task.createdAt with
  | none => rfl
  | some c =>
    have hr := MonthFromTime_range c
    simp only [Option.map_some']
    unfold monthDiff getMonth
    generalize getFullYear now = ny at *
    generalize MonthFromTime now = nm at *
    generalize getFullYear c = cy at *
    generalize MonthFromTime c = cm at *
    rw [Bool.eq_iff_iff]
    simp only [beq_iff_eq, Option.some.injEq, decide_eq_true_eq]
    constructor
    · intro h; omega
    · intro h; omega

/-- C16: when the year of `now` is not one of `0..99`, the monthly chart has six labels;
label `i` is the name of the calendar month (year and month index `0..11`) lying `5 - i`
months before the month of `now`, bucket `i` counts exactly the tasks whose known
`createdAt` has that year and month, the months run oldest to newest and end at the month
of `now`; when the month index of `now` is below `5 - i` the label is in the previous
year.  For `now` in February 2024 the labels are Sep 2023 .. Feb 2024. -/
theorem monthly_labels_align (tasks : List Task) (now : Int)
    (hyear : ¬ (0 ≤ getFullYear now ∧ getFullYear now ≤ 99)) :
    (getTasksOverTimeData tasks now).labels.length = 6 ∧
    (∀ i : Nat, i < 6 →
      (getTasksOverTimeData tasks now).labels.getD i ""
        = monthName (yearBefore now (5 - (i : Int))) (monthBefore now (5 - (i : Int))) ∧
      (getTasksOverTimeData tasks now).data.getD i 0
        = tasks.countP
            (createdInMonth (yearBefore now (5 - (i : Int))) (monthBefore now (5 - (i : Int)))) ∧
      0 ≤ monthBefore now (5 - (i : Int)) ∧ monthBefore now (5 - (i : Int)) ≤ 11 ∧
      yearBefore now (5 - (i : Int)) * 12 + monthBefore now (5 - (i : Int))
        = getFullYear now * 12 + getMonth now - (5 - (i : Int)) ∧
      (getMonth now < 5 - (i : Int) →
        yearBefore now (5 - (i : Int)) = getFullYear now - 1 ∧
        monthBefore now (5 - (i : Int)) = getMonth now - (5 - (i : Int)) + 12) ∧
      (5 - (i : Int) ≤ getMonth now →
        yearBefore now (5 - (i : Int)) = getFullYear now ∧
        monthBefore now (5 - (i : Int)) = getMonth now - (5 - (i : Int)))) ∧
    yearBefore now 0 = getFullYear now ∧ monthBefore now 0 = getMonth now ∧
    (getTasksOverTimeData [] februaryNoon).labels
      = ["Sep 2023", "Oct 2023", "Nov 2023", "Dec 2023", "Jan 2024", "Feb 2024"] := by
  have hm := MonthFromTime_range now
  have hlabels : (getTasksOverTimeData tasks now).labels
      = [5, 4, 3, 2, 1, 0].map
          (fun k : Int => formatMonthYear (newDateYM (getFullYear now) (getMonth now - k))) :=
    rfl
  refine ⟨by rw [hlabels]; rfl, ?_, ?_, ?_, by decide⟩
  · intro i hi
    refine ⟨?_, ?_, ?_, ?_, ?_, ?_, ?_⟩
    · rw [hlabels, ← label_names_month now _ hyear]
      interval_cases i <;> rfl
    · rw [monthData_eq_tally, tally_getD _ _ _ _ hi]
      congr 1
      funext task
      rw [monthIndex_eq now i hi, createdMonthsAgo_eq]
    · unfold monthBefore; omega
    · unfold monthBefore; omega
    · unfold yearBefore monthBefore; omega
    · intro hlt
      unfold yearBefore monthBefore getMonth at *
      omega
    · intro hge
      unfold yearBefore monthBefore getMonth at *
      omega
  · unfold yearBefore getMonth; omega
  · unfold monthBefore getMonth; omega

/-- Witness for C16: `now` in February 2024; label 4 is the month one month before, January
2024. -/
theorem monthly_labels_align_witness :
    (getTasksOverTimeData [sampleTask "a" none false (some inJanuary2024) none]
      februaryNoon).labels.getD 4 ""
      = monthName (yearBefore februaryNoon (5 - ((4 : Nat) : Int)))
          (monthBefore februaryNoon (5 - ((4 : Nat) : Int))) ∧
    monthName (yearBefore februaryNoon (5 - ((4 : Nat) : Int)))
      (monthBefore februaryNoon (5 - ((4 : Nat) : Int))) = "Jan 2024" ∧
    (getTasksOverTimeData [sampleTask "a" none false (some inJanuary2024) none]
      februaryNoon).data = [0, 0, 0, 0, 1, 0] :=
  ⟨((monthly_labels_align [sampleTask "a" none false (some inJanuary2024) none]
      februaryNoon (by decide)).2.1 4 (by decide)).1, by decide, by decide⟩

end TodoList
